import Mathlib

/-!
# Verification of the lollipop-jsonschema compiler

A shallow embedding of `lollipop_jsonschema/jsonschema.py`: the schema-node
graph handed to the compiler, the usage-counting pass
(`_count_schema_usages`), the definition allocator (the body of
`json_schema`), the fragment compiler (`_json_schema`) and the name
sanitizer (`_sanitize_name`).

Schema graphs are modelled arena-style: a list of nodes indexed by natural
numbers, so that Python object identity becomes index equality and cyclic
graphs (closed through `TypeRef` nodes) are representable.  Python
`dict`/`OrderedDict` values are modelled as association lists in insertion
order; Python sets are modelled as duplicate-free lists up to membership.
Fallible code returns `Except`; the unbounded recursions of the source are
given explicit fuel (a depth bound), with fuel exhaustion a distinguished
error, and all recursions are structural so that concrete runs evaluate in
the kernel.

The external `lollipop` library (types, validators, type registry) is not
part of this repository; its interface is modelled from the spec where
noted.
-/

namespace Lollipop

/-- JSON-ish values.  Used both for wire values (validator choices, dumped
defaults, constants) and for the JSON Schema fragments the compiler
produces (ordered key/value fragments are `jobj`). -/
inductive JVal where
  | jnull
  | jbool (b : Bool)
  | jint (n : Int)
  | jstr (s : String)
  | jarr (items : List JVal)
  | jobj (entries : List (String × JVal))
deriving Repr

mutual

/-- Boolean structural equality on values. -/
def beqJ : JVal → JVal → Bool
  | .jnull, .jnull => true
  | .jbool a, .jbool b => a == b
  | .jint a, .jint b => a == b
  | .jstr a, .jstr b => a == b
  | .jarr a, .jarr b => beqL a b
  | .jobj a, .jobj b => beqO a b
  | _, _ => false

/-- Boolean equality on value lists. -/
def beqL : List JVal → List JVal → Bool
  | [], [] => true
  | x :: xs, y :: ys => beqJ x y && beqL xs ys
  | _, _ => false

/-- Boolean equality on ordered fragments. -/
def beqO : List (String × JVal) → List (String × JVal) → Bool
  | [], [] => true
  | (k, v) :: xs, (k', v') :: ys => k == k' && beqJ v v' && beqO xs ys
  | _, _ => false

end

mutual

theorem beqJ_sound : ∀ a b, beqJ a b = true → a = b
  | .jnull, .jnull, _ => rfl
  | .jbool a, .jbool b, h => by
      have : a = b := by simpa [beqJ] using h
      rw [this]
  | .jint a, .jint b, h => by
      have : a = b := by simpa [beqJ] using h
      rw [this]
  | .jstr a, .jstr b, h => by
      have : a = b := by simpa [beqJ] using h
      rw [this]
  | .jarr a, .jarr b, h => by
      have : a = b := beqL_sound a b (by simpa [beqJ] using h)
      rw [this]
  | .jobj a, .jobj b, h => by
      have : a = b := beqO_sound a b (by simpa [beqJ] using h)
      rw [this]
  | .jnull, .jbool _, h => nomatch h
  | .jnull, .jint _, h => nomatch h
  | .jnull, .jstr _, h => nomatch h
  | .jnull, .jarr _, h => nomatch h
  | .jnull, .jobj _, h => nomatch h
  | .jbool _, .jnull, h => nomatch h
  | .jbool _, .jint _, h => nomatch h
  | .jbool _, .jstr _, h => nomatch h
  | .jbool _, .jarr _, h => nomatch h
  | .jbool _, .jobj _, h => nomatch h
  | .jint _, .jnull, h => nomatch h
  | .jint _, .jbool _, h => nomatch h
  | .jint _, .jstr _, h => nomatch h
  | .jint _, .jarr _, h => nomatch h
  | .jint _, .jobj _, h => nomatch h
  | .jstr _, .jnull, h => nomatch h
  | .jstr _, .jbool _, h => nomatch h
  | .jstr _, .jint _, h => nomatch h
  | .jstr _, .jarr _, h => nomatch h
  | .jstr _, .jobj _, h => nomatch h
  | .jarr _, .jnull, h => nomatch h
  | .jarr _, .jbool _, h => nomatch h
  | .jarr _, .jint _, h => nomatch h
  | .jarr _, .jstr _, h => nomatch h
  | .jarr _, .jobj _, h => nomatch h
  | .jobj _, .jnull, h => nomatch h
  | .jobj _, .jbool _, h => nomatch h
  | .jobj _, .jint _, h => nomatch h
  | .jobj _, .jstr _, h => nomatch h
  | .jobj _, .jarr _, h => nomatch h

theorem beqL_sound : ∀ a b : List JVal, beqL a b = true → a = b
  | [], [], _ => rfl
  | x :: xs, y :: ys, h => by
      have h1 : beqJ x y = true ∧ beqL xs ys = true := by
        simpa [beqL, Bool.and_eq_true] using h
      rw [beqJ_sound x y h1.1, beqL_sound xs ys h1.2]
  | [], _ :: _, h => nomatch h
  | _ :: _, [], h => nomatch h

theorem beqO_sound : ∀ a b : List (String × JVal), beqO a b = true → a = b
  | [], [], _ => rfl
  | (k, v) :: xs, (k', v') :: ys, h => by
      have h1 : (k == k') = true ∧ beqJ v v' = true ∧ beqO xs ys = true := by
        simpa [beqO, Bool.and_eq_true, and_assoc] using h
      have hk : k = k' := by simpa using h1.1
      rw [hk, beqJ_sound v v' h1.2.1, beqO_sound xs ys h1.2.2]
  | [], _ :: _, h => nomatch h
  | _ :: _, [], h => nomatch h

end

mutual

theorem beqJ_refl : ∀ a, beqJ a a = true
  | .jnull => rfl
  | .jbool a => by simp [beqJ]
  | .jint a => by simp [beqJ]
  | .jstr a => by simp [beqJ]
  | .jarr a => by simpa [beqJ] using beqL_refl a
  | .jobj a => by simpa [beqJ] using beqO_refl a

theorem beqL_refl : ∀ a : List JVal, beqL a a = true
  | [] => rfl
  | x :: xs => by simp [beqL, beqJ_refl x, beqL_refl xs]

theorem beqO_refl : ∀ a : List (String × JVal), beqO a a = true
  | [] => rfl
  | (k, v) :: xs => by simp [beqO, beqJ_refl v, beqO_refl xs]

end

instance : DecidableEq JVal := fun a b =>
  if h : beqJ a b = true then .isTrue (beqJ_sound a b h)
  else .isFalse (fun hh => h (hh ▸ beqJ_refl a))

/-- Python truthiness of a value (`if default:` in the source). -/
def pyTruthy : JVal → Bool
  | .jnull => false
  | .jbool b => b
  | .jint n => n != 0
  | .jstr s => s != ""
  | .jarr l => !l.isEmpty
  | .jobj l => !l.isEmpty

/-- Truthiness of an optional string attribute (`if schema.name:`). -/
def pyStrOpt : Option String → Bool
  | none => false
  | some s => s != ""

/-- Validators attached to a schema node, as in `lollipop.validators`.
Modelled from the spec: tagged constraint values
(`Length{min,max,exact}`, `Regexp{pattern}`, `Range{min,max}`,
`Unique{keyBasedOnIdentity}`, `AnyOf{choices}`, `NoneOf{values}`);
absent numeric bounds are `none`. -/
inductive Validator where
  | anyOf (choices : List JVal)
  | noneOf (values : List JVal)
  | length (vmin vmax vexact : Option Int)
  | range (vmin vmax : Option Int)
  | unique (keyIsIdentity : Bool)
  | regexp (pattern : String)
deriving Repr, DecidableEq

/-- The `allow_extra_fields` policy of an `Object` node: not set, a boolean,
or a field typed by another schema node. -/
inductive ExtraFields where
  | notSet
  | flag (b : Bool)
  | typed (field : Nat)
deriving Repr, DecidableEq

/-- Node kinds, as discriminated by the `isinstance` dispatch of
`_json_schema` / `_count_schema_usages`.  Children are node indices into the
graph.  `unsupported` stands for any lollipop type outside the enumerated
set (e.g. `lt.Date`), which falls through every branch of the dispatch. -/
inductive Kind where
  | any
  | string
  | number
  | integer
  | boolean
  | list (item : Nat)
  | tuple (items : List Nat)
  | object (fields : List (String × Nat)) (allowExtra : ExtraFields)
  | dict (fixed : List (String × Nat)) (dflt : Option Nat)
  | oneOf (variants : List Nat)
  | constant (value : JVal)
  | optional (inner : Nat) (loadDefault : Option JVal)
  | modifier (inner : Nat)
  | typeRef (inner : Nat)
  | unsupported
deriving Repr, DecidableEq

/-- A schema node: kind plus declared name, description and validators.
Modelled from the spec: these are the accessors the compiler consumes from
the external schema model.  The load-time default of an `optional` kind is
`none` for the absent/sentinel case. -/
structure Node where
  kind : Kind
  name : Option String := none
  description : Option String := none
  validators : List Validator := []
deriving Repr, DecidableEq

/-- A schema graph: an arena of nodes.  Index equality is Python object
identity. -/
structure Graph where
  nodes : List Node
deriving Repr, DecidableEq

/-- Node lookup; out-of-range indices yield an inert `Any` node (real
graphs never contain dangling indices). -/
def Graph.get (g : Graph) (n : Nat) : Node :=
  g.nodes.getD n { kind := .any }

/-- `dump`.  Modelled from the spec: the external schema model's
`dump(value)` serializes a domain value into its wire-primitive JSON
representation; since domain values are already represented here by their
wire JSON form, `dump` is the identity. -/
def dump (_g : Graph) (_n : Nat) (v : JVal) : JVal := v

/-! ## Association-list helpers (Python `dict` / `OrderedDict`) -/

/-- Lookup in an insertion-ordered association list keyed by node index. -/
def alookup {α : Type} : List (Nat × α) → Nat → Option α
  | [], _ => none
  | (k, v) :: rest, n => if k = n then some v else alookup rest n

/-- `js[key] = value` on an ordered fragment: replace in place if the key
exists (Python dict assignment keeps the original position), else append. -/
def setKey : List (String × JVal) → String → JVal → List (String × JVal)
  | [], k, v => [(k, v)]
  | (k', v') :: rest, k, v =>
    if k' = k then (k, v) :: rest else (k', v') :: setKey rest k v

/-- Key lookup in an ordered fragment. -/
def lookupL : List (String × JVal) → String → Option JVal
  | [], _ => none
  | (k', v) :: rest, k => if k' = k then some v else lookupL rest k

/-- Fragment-level key lookup (`frag['key']`), `none` on non-objects. -/
def lookupJ : JVal → String → Option JVal
  | .jobj entries, k => lookupL entries k
  | _, _ => none

/-- Fragment-level `js[key] = value`; non-objects are left unchanged (the
compiler only ever applies it to objects). -/
def setKeyJ : JVal → String → JVal → JVal
  | .jobj entries, k, v => .jobj (setKey entries k v)
  | j, _, _ => j

/-! ## Usage counting (`_count_schema_usages`, jsonschema.py:76-108) -/

/-- The child node indices the counting pass descends into, by kind
(`jsonschema.py:86-108`): `List` its item, `Tuple` its items, `Object` its
fields then a typed extra-fields schema, `Dict` its fixed value types then
the default value type, `OneOf` its variants, and anything with an
`inner_type` (modifiers, optionals, type references) its inner node. -/
def childIds : Kind → List Nat
  | .list item => [item]
  | .tuple items => items
  | .object fields extra =>
    fields.map Prod.snd ++ (match extra with | .typed f => [f] | _ => [])
  | .dict fixed dflt =>
    fixed.map Prod.snd ++ (match dflt with | some d => [d] | none => [])
  | .oneOf variants => variants
  | .optional inner _ => [inner]
  | .modifier inner => [inner]
  | .typeRef inner => [inner]
  | _ => []

/-- Occurrence counts keyed by node identity, in first-visit order (a
Python `dict`). -/
abbrev CMap := List (Nat × Nat)

/-- Increment the count of a key already present (`counts[schema] += 1`). -/
def cmIncr : CMap → Nat → CMap
  | [], _ => []
  | (k, c) :: rest, n =>
    if k = n then (k, c + 1) :: rest else (k, c) :: cmIncr rest n

/-- Run a per-node counting step over a list of children in order,
threading the counts (the `for` loops of `_count_schema_usages`). -/
def countSeq (step : Nat → CMap → Option CMap) : List Nat → CMap → Option CMap
  | [], counts => some counts
  | n :: rest, counts =>
    match step n counts with
    | none => none
    | some counts' => countSeq step rest counts'

/-- One unfolding of `_count_schema_usages(schema, counts)`: if the node is
already counted, increment and stop; a `TypeRef` is transparent (recurse
into its inner node without counting the reference); otherwise record the
node with count 1 and descend into its children. -/
def countStep (g : Graph) (rec : Nat → CMap → Option CMap) (n : Nat)
    (counts : CMap) : Option CMap :=
  if (alookup counts n).isSome then
    some (cmIncr counts n)
  else
    match (g.get n).kind with
    | .typeRef inner => rec inner counts
    | k => countSeq rec (childIds k) (counts ++ [(n, 1)])

/-- `_count_schema_usages` with a recursion-depth bound; `none` is fuel
exhaustion (standing for the Python recursion that does not terminate,
which can only happen on pure-`TypeRef` cycles). -/
def countFuel (fuel : Nat) (g : Graph) : Nat → CMap → Option CMap :=
  match fuel with
  | 0 => fun _ _ => none
  | fuel + 1 => countStep g (countFuel fuel g)

/-! ## Definition allocation (`json_schema`, jsonschema.py:40-59) -/

/-- Allocated definition slots: node identity to assigned name, in
first-registration order. -/
abbrev Defs := List (Nat × String)

/-- Is a character in the class `[a-zA-Z0-9-_]` of `_sanitize_name`? -/
def isValidChar (c : Char) : Bool :=
  c.isAlpha || c.isDigit || c == '-' || c == '_'

/-- `re.sub('[^a-zA-Z0-9-_]+', ' ', name)`: replace every maximal run of
invalid characters by a single space.  The boolean state records whether
the previous character was part of an invalid run. -/
def collapseGo : Bool → List Char → List Char
  | _, [] => []
  | inRun, c :: rest =>
    if isValidChar c then c :: collapseGo false rest
    else if inRun then collapseGo true rest
    else ' ' :: collapseGo true rest

/-- Strip leading and trailing spaces (`.strip()`; after the substitution
above, every whitespace character has become a space). -/
def stripSpaces (l : List Char) : List Char :=
  ((l.dropWhile (· == ' ')).reverse.dropWhile (· == ' ')).reverse

/-- Is a character in the separator class `[_ ]`? -/
def isSep (c : Char) : Bool := c == '_' || c == ' '

/-- `re.sub('[_ ]+([a-z])', lambda m: m.group(1).upper(), s)`: a maximal
run of separators immediately followed by a lowercase letter is deleted
and the letter upper-cased; a separator run not followed by a lowercase
letter is kept verbatim.  The first argument buffers the pending
separator run. -/
def camelGo : List Char → List Char → List Char
  | pending, [] => pending
  | pending, c :: rest =>
    if isSep c then camelGo (pending ++ [c]) rest
    else if c.isLower && !pending.isEmpty then c.toUpper :: camelGo [] rest
    else pending ++ (c :: camelGo [] rest)

/-- `_sanitize_name` (jsonschema.py:27-31). -/
def sanitizeName (s : String) : String :=
  ⟨camelGo [] (stripSpaces (collapseGo false s.data))⟩

/-- The camel-casing step as the claim words it ("upper-casing the first
letter following each remaining underscore or space and deleting that
separator"): any letter after a separator run is upper-cased and the run
deleted, whether or not the letter is lowercase. -/
def claimCamelGo : List Char → List Char → List Char
  | pending, [] => pending
  | pending, c :: rest =>
    if isSep c then claimCamelGo (pending ++ [c]) rest
    else if c.isAlpha && !pending.isEmpty then c.toUpper :: claimCamelGo [] rest
    else pending ++ (c :: claimCamelGo [] rest)

/-- The claim's sanitization recipe, verbatim: collapse invalid runs, trim,
then camel-case at every letter following a separator. -/
def claimSanitizeName (s : String) : String :=
  ⟨claimCamelGo [] (stripSpaces (collapseGo false s.data))⟩

/-- Spec-side (amended) reading of the first substitution: replace each
maximal run of invalid characters by one space, by direct lookahead. -/
def specCollapse : List Char → List Char
  | [] => []
  | c :: rest =>
    if isValidChar c then c :: specCollapse rest
    else ' ' :: specCollapse (rest.dropWhile (fun d => !isValidChar d))
termination_by l => l.length
decreasing_by
  · simp
  · have := (List.dropWhile_sublist (l := rest) (fun d => !isValidChar d)).length_le
    simp; omega

/-- State of the spec-side right-to-left camel scan: what the already
processed suffix begins with. -/
inductive CamelSt where
  | plain
  | lowerHead
  | absorbing
deriving Repr, DecidableEq

/-- Upper-case the first character of a list. -/
def capitalizeHead : List Char → List Char
  | [] => []
  | d :: tl => d.toUpper :: tl

/-- Spec-side (amended) reading of the camel-casing step, processed right
to left: a lowercase letter (`lowerHead`) absorbs the separator run to its
left, upper-casing itself at the first separator (`absorbing` deletes the
rest of the run); separator runs not followed by a lowercase letter are
kept. -/
def camelStep (c : Char) : List Char × CamelSt → List Char × CamelSt
  | (acc, st) =>
    if isSep c then
      match st with
      | .lowerHead => (capitalizeHead acc, .absorbing)
      | .absorbing => (acc, .absorbing)
      | .plain => (c :: acc, .plain)
    else (c :: acc, if c.isLower then .lowerHead else .plain)

/-- The amended camel-casing rule as a right fold. -/
def specCamel (l : List Char) : List Char :=
  (l.foldr camelStep ([], .plain)).1

/-- The amended claim's sanitization recipe. -/
def specSanitizeName (s : String) : String :=
  ⟨specCamel (stripSpaces (specCollapse s.data))⟩

/-- The base definition name of a node:
`_sanitize_name(schema1.name) if schema1.name else 'Type'`. -/
def defBaseName (g : Graph) (n : Nat) : String :=
  if pyStrOpt (g.get n).name then sanitizeName (((g.get n).name).getD "")
  else "Type"

/-- The `while def_name + str(i) in definition_names: i += 1` loop: try
suffixes `i, i+1, ...` until a free name is found.  The Python loop always
terminates because only finitely many names are taken; fuel
`taken.length + 1` is enough (proved below), and the fallback at fuel 0 is
unreachable. -/
def suffixGo (taken : List String) (base : String) : Nat → Nat → String
  | 0, i => base ++ Nat.repr i
  | f + 1, i =>
    if (base ++ Nat.repr i) ∈ taken then suffixGo taken base f (i + 1)
    else base ++ Nat.repr i

/-- Pick the first free suffixed name `base ++ str(i)`, `i = 1, 2, ...`. -/
def allocSuffix (taken : List String) (base : String) : String :=
  suffixGo taken base (taken.length + 1) 1

/-- Pick the definition name for a base: the base itself when free, else
the first free suffixed name (jsonschema.py:52-56). -/
def pickName (taken : List String) (base : String) : String :=
  if base ∈ taken then allocSuffix taken base else base

/-- The definition-allocation loop of `json_schema` (jsonschema.py:45-59):
walk the counts in first-visit order, skip nodes counted exactly once,
assign each remaining node its sanitized base name, resolving collisions
with the smallest free integer suffix.  `taken` is `definition_names`
(initially empty at top level). -/
def allocGo (g : Graph) : List (Nat × Nat) → List String → Defs
  | [], _ => []
  | (n, c) :: rest, taken =>
    if c = 1 then allocGo g rest taken
    else
      let nm := pickName taken (defBaseName g n)
      (n, nm) :: allocGo g rest (nm :: taken)

/-- Definition slots for a counts map, at top level (no pre-existing
definitions). -/
def allocDefs (g : Graph) (counts : CMap) : Defs :=
  allocGo g counts []

/-! ## Fragment compilation (`_json_schema`, jsonschema.py:111-257) -/

/-- Errors a compilation can raise.  `constraintError` is the
`ValueError('AnyOf constraints choices does not allow any values')` of
jsonschema.py:141 (the spec's `ConstraintError`); `nameError` is the
`NameError` raised by the undefined variable `fixed_properties` at
jsonschema.py:241; `fuelOut` is exhaustion of the recursion-depth bound. -/
inductive RErr where
  | fuelOut
  | constraintError
  | nameError
deriving Repr, DecidableEq

/-- The `{"$ref": "#/definitions/<name>"}` fragment. -/
def refFrag (nm : String) : JVal :=
  .jobj [("$ref", .jstr ("#/definitions/" ++ nm))]

/-- The `AnyOf` choice lists among a node's validators. -/
def anyOfLists : List Validator → List (List JVal) :=
  List.filterMap fun | .anyOf cs => some cs | _ => none

/-- The `NoneOf` value lists among a node's validators. -/
def noneOfLists : List Validator → List (List JVal) :=
  List.filterMap fun | .noneOf vs => some vs | _ => none

/-- The `Length` validators among a node's validators. -/
def lengthVs : List Validator → List (Option Int × Option Int × Option Int) :=
  List.filterMap fun | .length a b c => some (a, b, c) | _ => none

/-- The `Range` validators among a node's validators. -/
def rangeVs : List Validator → List (Option Int × Option Int) :=
  List.filterMap fun | .range a b => some (a, b) | _ => none

/-- The `Unique` validators' key flags. -/
def uniqueVs : List Validator → List Bool :=
  List.filterMap fun | .unique b => some b | _ => none

/-- The `Regexp` validators' patterns. -/
def regexpVs : List Validator → List String :=
  List.filterMap fun | .regexp p => some p | _ => none

/-- `set(first)` then intersect with each further choice set
(jsonschema.py:136-138); Python sets are lists up to membership. -/
def interAll : List (List JVal) → List JVal
  | [] => []
  | c :: rest => rest.foldl (fun acc ch => acc.filter (· ∈ ch)) c.dedup

/-- `set(first)` then union with each further value set
(jsonschema.py:149-151). -/
def unionAll (ls : List (List JVal)) : List JVal :=
  (ls.foldl (· ++ ·) []).dedup

/-- Truthiness of an optional numeric attribute (`if v.min:` — `None` and
`0` are both falsy). -/
def optTruthy : Option Int → Bool
  | none => false
  | some k => k != 0

/-- Python `a or b` on optional numerics (`v.exact or v.min`): the first
operand if truthy, else the second. -/
def pyOr (a b : Option Int) : Option Int := if optTruthy a then a else b

/-- Python 2 ordering on optional numerics: `None` sorts below every
number (the repository targets Python 2's comparison semantics; no claim
exercises mixed-`None` aggregations). -/
def pyleInt : Option Int → Option Int → Bool
  | none, _ => true
  | some _, none => false
  | some a, some b => a ≤ b

/-- `max(...)` over a non-empty generator of optional numerics. -/
def pyMaxL : List (Option Int) → Option Int
  | [] => none
  | x :: xs => xs.foldl (fun acc v => if pyleInt acc v then v else acc) x

/-- `min(...)` over a non-empty generator of optional numerics. -/
def pyMinL : List (Option Int) → Option Int
  | [] => none
  | x :: xs => xs.foldl (fun acc v => if pyleInt v acc then v else acc) x

/-- Render an optional numeric as a fragment value. -/
def jnum : Option Int → JVal
  | some n => .jint n
  | none => .jnull

/-- Is a kind the `Optional` modifier (`isinstance(v.field_type,
lt.Optional)`)? -/
def isOptionalKind : Kind → Bool
  | .optional _ _ => true
  | _ => false

/-- Kinds handled by the generic fragment builder: everything except the
pass-through modifier/optional/reference kinds, which `_json_schema`
dispatches before reaching the cross-cutting validator checks. -/
def isPlainKind : Kind → Bool
  | .optional _ _ => false
  | .modifier _ => false
  | .typeRef _ => false
  | _ => true

/-- The generic `title`/`description` prefix of a fragment
(jsonschema.py:128-132). -/
def titleDescFrag (nd : Node) : List (String × JVal) :=
  (if pyStrOpt nd.name then [("title", JVal.jstr (nd.name.getD ""))] else []) ++
    (if pyStrOpt nd.description then
      [("description", JVal.jstr (nd.description.getD ""))] else [])

/-- The amended claim's characterization of one name choice: the base when
free, else `base ++ str(k)` for the smallest positive `k` making the name
unused. -/
def LeastSuffixSpec (taken : List String) (base nm : String) : Prop :=
  (base ∉ taken ∧ nm = base) ∨
    (base ∈ taken ∧ ∃ k, 1 ≤ k ∧ nm = base ++ Nat.repr k ∧ nm ∉ taken ∧
      ∀ j, 1 ≤ j → j < k → base ++ Nat.repr j ∈ taken)

/-- Render a list of child nodes in order (`render1` is the recursive
renderer at the current definitions, non-forced). -/
def renderSeq (render1 : Nat → Except RErr JVal) :
    List Nat → Except RErr (List JVal)
  | [] => .ok []
  | n :: rest => do
    let v ← render1 n
    let vs ← renderSeq render1 rest
    pure (v :: vs)

/-- Render named child nodes in order (object/dict properties). -/
def renderPairs (render1 : Nat → Except RErr JVal) :
    List (String × Nat) → Except RErr (List (String × JVal))
  | [] => .ok []
  | (k, n) :: rest => do
    let v ← render1 n
    let vs ← renderPairs render1 rest
    pure ((k, v) :: vs)

/-- The shared `Range` aggregation of the Number/Integer branch
(jsonschema.py:179-184). -/
def rangeKeys (vals : List Validator) (js : List (String × JVal)) :
    List (String × JVal) :=
  let rvs := rangeVs vals
  if rvs ≠ [] then
    let js :=
      if rvs.any (fun v => optTruthy v.1) then
        setKey js "minimum"
          (jnum (pyMaxL ((rvs.filter fun v => optTruthy v.1).map Prod.fst)))
      else js
    if rvs.any (fun v => optTruthy v.2) then
      setKey js "maximum"
        (jnum (pyMinL ((rvs.filter fun v => optTruthy v.2).map Prod.snd)))
    else js
  else js

/-- The `Length` aggregation of the String branch (jsonschema.py:161-168). -/
def lengthKeysString (vals : List Validator) (js : List (String × JVal)) :
    List (String × JVal) :=
  let lvs := lengthVs vals
  if lvs ≠ [] then
    let js :=
      if lvs.any (fun v => optTruthy v.1) || lvs.any (fun v => optTruthy v.2.2) then
        setKey js "minLength" (jnum (pyMaxL (lvs.map fun v => pyOr v.2.2 v.1)))
      else js
    if lvs.any (fun v => optTruthy v.2.1) || lvs.any (fun v => optTruthy v.2.2) then
      setKey js "maxLength" (jnum (pyMinL (lvs.map fun v => pyOr v.2.2 v.2.1)))
    else js
  else js

/-- The first `Regexp` validator's pattern (jsonschema.py:170-172). -/
def patternKey (vals : List Validator) (js : List (String × JVal)) :
    List (String × JVal) :=
  match regexpVs vals with
  | p :: _ => setKey js "pattern" (.jstr p)
  | [] => js

/-- The `Length` aggregation of the List branch (jsonschema.py:191-198; note
`minItems` uses `min`, unlike the String branch). -/
def lengthKeysList (vals : List Validator) (js : List (String × JVal)) :
    List (String × JVal) :=
  let lvs := lengthVs vals
  if lvs ≠ [] then
    let js :=
      if lvs.any (fun v => optTruthy v.1) || lvs.any (fun v => optTruthy v.2.2) then
        setKey js "minItems" (jnum (pyMinL (lvs.map fun v => pyOr v.2.2 v.1)))
      else js
    if lvs.any (fun v => optTruthy v.2.1) || lvs.any (fun v => optTruthy v.2.2) then
      setKey js "maxItems" (jnum (pyMinL (lvs.map fun v => pyOr v.2.2 v.2.1)))
    else js
  else js

/-- The `Unique` key of the List branch (jsonschema.py:200-202). -/
def uniqueKey (vals : List Validator) (js : List (String × JVal)) :
    List (String × JVal) :=
  let uvs := uniqueVs vals
  if uvs ≠ [] ∧ uvs.any id then setKey js "uniqueItems" (.jbool true) else js

/-- The kind-specific body of `_json_schema` (jsonschema.py:156-257),
applied to the fragment `js` already carrying `title`/`description`/`not`.
`rec1` renders a child node (non-forced) at the ambient definitions. -/
def renderKindBody (g : Graph) (rec1 : Nat → Except RErr JVal) (nd : Node)
    (js : List (String × JVal)) : Except RErr (List (String × JVal)) :=
  match nd.kind with
  | .any => pure js
  | .string =>
    pure (patternKey nd.validators
      (lengthKeysString nd.validators (setKey js "type" (.jstr "string"))))
  | .integer => pure (rangeKeys nd.validators (setKey js "type" (.jstr "integer")))
  | .number => pure (rangeKeys nd.validators (setKey js "type" (.jstr "number")))
  | .boolean => pure (setKey js "type" (.jstr "boolean"))
  | .list item => do
    let itemJs ← rec1 item
    pure (uniqueKey nd.validators
      (lengthKeysList nd.validators
        (setKey (setKey js "type" (.jstr "array")) "items" itemJs)))
  | .tuple items => do
    let vs ← renderSeq rec1 items
    pure (setKey (setKey js "type" (.jstr "array")) "items" (.jarr vs))
  | .object fields extra => do
    let props ← renderPairs rec1 fields
    let js := setKey (setKey js "type" (.jstr "object")) "properties" (.jobj props)
    let required :=
      (fields.filter fun kv => !isOptionalKind (g.get kv.2).kind).map Prod.fst
    let js :=
      if required ≠ [] then
        setKey js "required" (.jarr (required.map .jstr))
      else js
    match extra with
    | .flag b => pure (setKey js "additionalProperties" (.jbool b))
    | .typed f =>
      if (g.get f).kind = .any then
        pure (setKey js "additionalProperties" (.jbool true))
      else do
        let v ← rec1 f
        pure (setKey js "additionalProperties" v)
    | .notSet => pure js
  | .dict fixed _ => do
    let js := setKey js "type" (.jstr "object")
    let props ← renderPairs rec1 fixed
    let js := if props ≠ [] then setKey js "properties" (.jobj props) else js
    -- jsonschema.py:239-243 then evaluates `iteritems(fixed_properties)`
    -- where `fixed_properties` is not defined anywhere: every Dict render
    -- raises NameError here, and the `required`/`additionalProperties`
    -- code below it (lines 244-248) is unreachable.
    let _ := js
    .error .nameError
  | .oneOf variants => do
    let vs ← renderSeq rec1 variants
    pure (setKey js "anyOf" (.jarr vs))
  | .constant v => pure (setKey js "const" v)
  | .optional _ _ => pure js
  | .modifier _ => pure js
  | .typeRef _ => pure js
  | .unsupported => pure js

/-- The generic fragment builder of `_json_schema` for table kinds
(jsonschema.py:128-257): `title`/`description`, the cross-cutting
`AnyOf`-enum check (which returns at once), the `NoneOf`-`not` key, then
the kind-specific body.  `rec1` renders a child node, non-forced. -/
def renderPlain (g : Graph) (rec1 : Nat → Except RErr JVal) (n : Nat) :
    Except RErr JVal :=
  let nd := g.get n
  let js :=
    if pyStrOpt nd.name then setKey [] "title" (.jstr (nd.name.getD ""))
    else []
  let js :=
    if pyStrOpt nd.description then
      setKey js "description" (.jstr (nd.description.getD ""))
    else js
  let aos := anyOfLists nd.validators
  if aos ≠ [] then
    let inter := interAll aos
    if inter = [] then .error .constraintError
    else .ok (.jobj (setKey js "enum" (.jarr (inter.map (dump g n)))))
  else
    let uni := unionAll (noneOfLists nd.validators)
    let js :=
      if noneOfLists nd.validators ≠ [] ∧ uni ≠ [] then
        setKey js "not" (.jobj [("enum", .jarr (uni.map (dump g n)))])
      else js
    do
      let body ← renderKindBody g rec1 nd js
      pure (.jobj body)

/-- The body of `_json_schema` past the `$ref` substitution check
(jsonschema.py:115-257): modifier/reference dispatch, then the generic
builder for all other kinds. -/
def renderMain (g : Graph) (defs : Defs) (rec : Bool → Nat → Except RErr JVal)
    (force : Bool) (n : Nat) : Except RErr JVal :=
  match (g.get n).kind with
    | .optional inner dflt => do
      let js ← rec false inner
      match dflt with
      | some v =>
        if pyTruthy v then pure (setKeyJ js "default" (dump g inner v))
        else pure js
      | none => pure js
    | .modifier inner => rec false inner
    | .typeRef inner => rec force inner
    | _ => renderPlain g (rec false) n

/-- One unfolding of `_json_schema(schema, definitions, force_render)`
(jsonschema.py:111-257): substitute a `$ref` for an already-promoted node
unless this is the designated definition-body render, else fall through to
the main body. -/
def renderStep (g : Graph) (defs : Defs) (rec : Bool → Nat → Except RErr JVal)
    (force : Bool) (n : Nat) : Except RErr JVal :=
  match force, alookup defs n with
  | false, some nm => .ok (refFrag nm)
  | _, _ => renderMain g defs rec force n

/-- `_json_schema` with a recursion-depth bound. -/
def renderFuel (fuel : Nat) (g : Graph) (defs : Defs) :
    Bool → Nat → Except RErr JVal :=
  match fuel with
  | 0 => fun _ _ => .error .fuelOut
  | fuel + 1 => renderStep g defs (renderFuel fuel g defs)

/-- Render every allocated definition body (the loop at
jsonschema.py:61-67; `force_render=True` designates the body render). -/
def renderBodies (render : Bool → Nat → Except RErr JVal) :
    Defs → Except RErr (List (String × JVal))
  | [] => .ok []
  | (n, nm) :: rest => do
    let b ← render true n
    let bs ← renderBodies render rest
    pure ((nm, b) :: bs)

/-- `json_schema(schema)` at top level (jsonschema.py:34-73): count usages,
allocate definition slots for duplicated nodes, render every definition
body, render the root, and attach the `definitions` block when any slot
exists. -/
def compileFuel (fuel : Nat) (g : Graph) (root : Nat) : Except RErr JVal :=
  match countFuel fuel g root [] with
  | none => .error .fuelOut
  | some counts =>
    let defs := allocDefs g counts
    match renderBodies (renderFuel fuel g defs) defs with
    | .error e => .error e
    | .ok bodies =>
      match renderFuel fuel g defs false root with
      | .error e => .error e
      | .ok js =>
        .ok (if defs.isEmpty then js else setKeyJ js "definitions" (.jobj bodies))

instance {ε α : Type} [DecidableEq ε] [DecidableEq α] : DecidableEq (Except ε α) := fun
  | .ok a, .ok b =>
    if h : a = b then .isTrue (by rw [h]) else .isFalse (fun hh => by cases hh; exact h rfl)
  | .error a, .error b =>
    if h : a = b then .isTrue (by rw [h]) else .isFalse (fun hh => by cases hh; exact h rfl)
  | .ok _, .error _ => .isFalse (fun hh => by cases hh)
  | .error _, .ok _ => .isFalse (fun hh => by cases hh)

/-! ## Sanity checks against the repository's test suite -/

/-- `test_string_schema`: `json_schema(lt.String()) == {'type': 'string'}`. -/
example :
    compileFuel 5 ⟨[{ kind := .string }]⟩ 0 =
      .ok (.jobj [("type", .jstr "string")]) := by decide

/-- `test_optional_load_default_is_used_as_default`. -/
example :
    compileFuel 5 ⟨[{ kind := .string },
                    { kind := .optional 0 (some (.jstr "foo")) }]⟩ 1 =
      .ok (.jobj [("type", .jstr "string"), ("default", .jstr "foo")]) := by
  decide

/-- `test_duplicate_types_in_objects_are_extracted_to_definitions`. -/
example :
    compileFuel 6
      ⟨[{ kind := .string, name := some "MyString" },
        { kind := .object [("foo", 0), ("bar", 0)] .notSet }]⟩ 1 =
      .ok (.jobj
        [("type", .jstr "object"),
         ("properties", .jobj
            [("foo", refFrag "MyString"), ("bar", refFrag "MyString")]),
         ("required", .jarr [.jstr "foo", .jstr "bar"]),
         ("definitions", .jobj
            [("MyString", .jobj [("title", .jstr "MyString"),
                                 ("type", .jstr "string")])])]) := by decide

/-! ## Decimal representation: `str(i)` is injective -/

/-- Numeric value of a decimal digit character. -/
def digitVal (c : Char) : Nat := c.toNat - 48

/-- Decimal interpretation of a digit string. -/
def interpDigits (l : List Char) : Nat :=
  l.foldl (fun a c => 10 * a + digitVal c) 0

theorem toDigitsCore_acc (f : Nat) : ∀ (n : Nat) (ds : List Char),
    Nat.toDigitsCore 10 f n ds = Nat.toDigitsCore 10 f n [] ++ ds := by
  induction f with
  | zero => intro n ds; simp [Nat.toDigitsCore]
  | succ f ih =>
    intro n ds
    simp only [Nat.toDigitsCore]
    by_cases h : n / 10 = 0
    · simp [h]
    · simp only [h, if_false]
      rw [ih (n / 10) (Nat.digitChar (n % 10) :: ds),
        ih (n / 10) [Nat.digitChar (n % 10)], List.append_assoc]
      rfl

theorem digitVal_digitChar (d : Nat) (h : d < 10) :
    digitVal (Nat.digitChar d) = d := by
  interval_cases d <;> rfl

theorem interp_toDigitsCore (f : Nat) : ∀ n, n < f →
    interpDigits (Nat.toDigitsCore 10 f n []) = n := by
  induction f with
  | zero => intro n hn; omega
  | succ f ih =>
    intro n hn
    simp only [Nat.toDigitsCore]
    by_cases h : n / 10 = 0
    · have hlt : n < 10 := by omega
      have hmod : n % 10 = n := Nat.mod_eq_of_lt hlt
      simp [h, interpDigits, hmod, digitVal_digitChar n hlt]
    · rw [if_neg h, toDigitsCore_acc]
      have hrec : n / 10 < f := by
        have h1 : n / 10 < n := Nat.div_lt_self (by omega) (by omega)
        omega
      unfold interpDigits
      rw [List.foldl_append]
      have := ih (n / 10) hrec
      unfold interpDigits at this
      rw [this]
      simp [digitVal_digitChar (n % 10) (Nat.mod_lt n (by omega))]
      omega

theorem natRepr_inj : ∀ m n : Nat, Nat.repr m = Nat.repr n → m = n := by
  intro m n h
  have hd : Nat.toDigits 10 m = Nat.toDigits 10 n := by
    have := congrArg String.data h
    simpa [Nat.repr, List.asString] using this
  have h1 := interp_toDigitsCore (m + 1) m (Nat.lt_succ_self m)
  have h2 := interp_toDigitsCore (n + 1) n (Nat.lt_succ_self n)
  unfold Nat.toDigits at hd
  rw [← h1, ← h2, hd]

theorem string_append_cancel_left (a b c : String) (h : a ++ b = a ++ c) :
    b = c := by
  apply String.ext
  have hd := congrArg String.data h
  simp only [String.data_append] at hd
  exact List.append_cancel_left hd

theorem exists_free_suffix (taken : List String) (base : String) (i : Nat) :
    ∃ k, i ≤ k ∧ k < i + taken.length + 1 ∧ base ++ Nat.repr k ∉ taken := by
  by_contra hall
  push_neg at hall
  have hinj : Function.Injective (fun t : Nat => base ++ Nat.repr (i + t)) := by
    intro a b hab
    have := natRepr_inj _ _ (string_append_cancel_left base _ _ hab)
    omega
  have hsub : ((List.range (taken.length + 1)).map
      (fun t => base ++ Nat.repr (i + t))) ⊆ taken := by
    intro x hx
    simp only [List.mem_map, List.mem_range] at hx
    obtain ⟨t, ht, rfl⟩ := hx
    exact hall _ (Nat.le_add_right i t) (by omega)
  have hnd : ((List.range (taken.length + 1)).map
      (fun t => base ++ Nat.repr (i + t))).Nodup :=
    (List.nodup_range _).map hinj
  have := (hnd.subperm hsub).length_le
  simp at this

theorem suffixGo_spec (taken : List String) (base : String) :
    ∀ f i, (∃ k, i ≤ k ∧ k < i + f ∧ base ++ Nat.repr k ∉ taken) →
      ∃ k, i ≤ k ∧ suffixGo taken base f i = base ++ Nat.repr k ∧
        base ++ Nat.repr k ∉ taken ∧
        ∀ j, i ≤ j → j < k → base ++ Nat.repr j ∈ taken := by
  intro f
  induction f with
  | zero => intro i ⟨k, hk1, hk2, _⟩; omega
  | succ f ih =>
    intro i hex
    by_cases hmem : (base ++ Nat.repr i) ∈ taken
    · obtain ⟨k, hk1, hk2, hk3⟩ := hex
      have hki : k ≠ i := fun hh => hk3 (hh ▸ hmem)
      obtain ⟨k', h1, h2, h3, h4⟩ := ih (i + 1) ⟨k, by omega, by omega, hk3⟩
      refine ⟨k', by omega, ?_, h3, ?_⟩
      · simpa [suffixGo, hmem] using h2
      · intro j hj1 hj2
        rcases Nat.eq_or_lt_of_le hj1 with rfl | hj
        · exact hmem
        · exact h4 j hj hj2
    · exact ⟨i, le_refl i, by simp [suffixGo, hmem], hmem, fun j h1 h2 => by omega⟩

/-- Specification of the collision loop: `allocSuffix taken base` is
`base ++ str(k)` for the smallest `k ≥ 1` making the name unused. -/
theorem allocSuffix_spec (taken : List String) (base : String) :
    ∃ k, 1 ≤ k ∧ allocSuffix taken base = base ++ Nat.repr k ∧
      base ++ Nat.repr k ∉ taken ∧
      ∀ j, 1 ≤ j → j < k → base ++ Nat.repr j ∈ taken := by
  obtain ⟨k, h1, h2, h3⟩ := exists_free_suffix taken base 1
  exact suffixGo_spec taken base (taken.length + 1) 1 ⟨k, h1, by omega, h3⟩

/-! ## Unfolding and small helper lemmas -/

theorem renderFuel_succ (fuel : Nat) (g : Graph) (defs : Defs) :
    renderFuel (fuel + 1) g defs = renderStep g defs (renderFuel fuel g defs) :=
  rfl

theorem countFuel_succ (fuel : Nat) (g : Graph) :
    countFuel (fuel + 1) g = countStep g (countFuel fuel g) :=
  rfl

theorem renderStep_ref (g : Graph) (defs : Defs)
    (rec : Bool → Nat → Except RErr JVal) (n : Nat) (nm : String)
    (h : alookup defs n = some nm) :
    renderStep g defs rec false n = .ok (refFrag nm) := by
  show (match false, alookup defs n with
        | false, some nm => Except.ok (refFrag nm)
        | _, _ => renderMain g defs rec false n) = _
  rw [h]

theorem renderStep_miss (g : Graph) (defs : Defs)
    (rec : Bool → Nat → Except RErr JVal) (force : Bool) (n : Nat)
    (h : alookup defs n = none) :
    renderStep g defs rec force n = renderMain g defs rec force n := by
  show (match force, alookup defs n with
        | false, some nm => Except.ok (refFrag nm)
        | _, _ => renderMain g defs rec force n) = _
  rw [h]
  cases force <;> rfl

theorem renderStep_forced (g : Graph) (defs : Defs)
    (rec : Bool → Nat → Except RErr JVal) (n : Nat) :
    renderStep g defs rec true n = renderMain g defs rec true n := by
  show (match true, alookup defs n with
        | false, some nm => Except.ok (refFrag nm)
        | _, _ => renderMain g defs rec true n) = _
  cases halookup : alookup defs n <;> rfl

theorem countStep_hit (g : Graph) (rec : Nat → CMap → Option CMap) (n : Nat)
    (counts : CMap) (c : Nat) (h : alookup counts n = some c) :
    countStep g rec n counts = some (cmIncr counts n) := by
  show (if (alookup counts n).isSome then some (cmIncr counts n)
        else match (g.get n).kind with
          | .typeRef inner => rec inner counts
          | k => countSeq rec (childIds k) (counts ++ [(n, 1)])) = _
  rw [h]
  rfl

theorem countStep_typeRef (g : Graph) (rec : Nat → CMap → Option CMap)
    (n inner : Nat) (counts : CMap) (h : alookup counts n = none)
    (hk : (g.get n).kind = .typeRef inner) :
    countStep g rec n counts = rec inner counts := by
  show (if (alookup counts n).isSome then some (cmIncr counts n)
        else match (g.get n).kind with
          | .typeRef inner => rec inner counts
          | k => countSeq rec (childIds k) (counts ++ [(n, 1)])) = _
  rw [h, hk]
  rfl

theorem countStep_new (g : Graph) (rec : Nat → CMap → Option CMap) (n : Nat)
    (counts : CMap) (h : alookup counts n = none)
    (hnr : ∀ i, (g.get n).kind ≠ .typeRef i) :
    countStep g rec n counts =
      countSeq rec (childIds (g.get n).kind) (counts ++ [(n, 1)]) := by
  show (if (alookup counts n).isSome then some (cmIncr counts n)
        else match (g.get n).kind with
          | .typeRef inner => rec inner counts
          | k => countSeq rec (childIds k) (counts ++ [(n, 1)])) = _
  rw [h]
  cases hk : (g.get n).kind <;> simp only [hk] <;> first
    | rfl
    | exact absurd hk (hnr _)

theorem lookupL_setKey_self (js : List (String × JVal)) (k : String) (v : JVal) :
    lookupL (setKey js k v) k = some v := by
  induction js with
  | nil => simp [setKey, lookupL]
  | cons kv rest ih =>
    by_cases h : kv.1 = k
    · simp [setKey, h, lookupL]
    · simpa [setKey, h, lookupL] using ih

theorem lookupL_setKey_ne (js : List (String × JVal)) (k q : String) (v : JVal)
    (h : q ≠ k) : lookupL (setKey js k v) q = lookupL js q := by
  have h2 : ¬k = q := fun hh => h hh.symm
  induction js with
  | nil => simp [setKey, lookupL, h2]
  | cons kv rest ih =>
    by_cases hk : kv.1 = k
    · subst hk
      simp [setKey, lookupL, h2]
    · simp only [setKey, if_neg hk, lookupL]
      by_cases hq : kv.1 = q <;> simp [hq, ih]

theorem alookup_eq_none {α : Type} (m : List (Nat × α)) (n : Nat) :
    alookup m n = none ↔ n ∉ m.map Prod.fst := by
  induction m with
  | nil => simp [alookup]
  | cons kv rest ih =>
    by_cases h : kv.1 = n
    · simp [alookup, h]
    · have h2 : ¬n = kv.1 := fun hh => h hh.symm
      simp [alookup, h, h2, ih]

theorem alookup_isSome {α : Type} (m : List (Nat × α)) (n : Nat) :
    (alookup m n).isSome = true ↔ n ∈ m.map Prod.fst := by
  rw [Option.isSome_iff_ne_none]
  constructor
  · intro h
    by_contra hmem
    exact h ((alookup_eq_none m n).2 hmem)
  · intro h hn
    exact ((alookup_eq_none m n).1 hn) h

theorem renderMain_plain (g : Graph) (defs : Defs)
    (rec : Bool → Nat → Except RErr JVal) (force : Bool) (n : Nat)
    (hplain : isPlainKind (g.get n).kind = true) :
    renderMain g defs rec force n = renderPlain g (rec false) n := by
  show (match (g.get n).kind with
    | .optional inner dflt => do
      let js ← rec false inner
      match dflt with
      | some v =>
        if pyTruthy v then pure (setKeyJ js "default" (dump g inner v))
        else pure js
      | none => pure js
    | .modifier inner => rec false inner
    | .typeRef inner => rec force inner
    | _ => renderPlain g (rec false) n) = _
  cases hk : (g.get n).kind <;> simp [isPlainKind, hk] at hplain ⊢

theorem renderMain_modifier (g : Graph) (defs : Defs)
    (rec : Bool → Nat → Except RErr JVal) (force : Bool) (n inner : Nat)
    (hk : (g.get n).kind = .modifier inner) :
    renderMain g defs rec force n = rec false inner := by
  show (match (g.get n).kind with
    | .optional inner dflt => do
      let js ← rec false inner
      match dflt with
      | some v =>
        if pyTruthy v then pure (setKeyJ js "default" (dump g inner v))
        else pure js
      | none => pure js
    | .modifier inner => rec false inner
    | .typeRef inner => rec force inner
    | _ => renderPlain g (rec false) n) = _
  rw [hk]

theorem renderMain_typeRef (g : Graph) (defs : Defs)
    (rec : Bool → Nat → Except RErr JVal) (force : Bool) (n inner : Nat)
    (hk : (g.get n).kind = .typeRef inner) :
    renderMain g defs rec force n = rec force inner := by
  show (match (g.get n).kind with
    | .optional inner dflt => do
      let js ← rec false inner
      match dflt with
      | some v =>
        if pyTruthy v then pure (setKeyJ js "default" (dump g inner v))
        else pure js
      | none => pure js
    | .modifier inner => rec false inner
    | .typeRef inner => rec force inner
    | _ => renderPlain g (rec false) n) = _
  rw [hk]

theorem renderMain_optional_some (g : Graph) (defs : Defs)
    (rec : Bool → Nat → Except RErr JVal) (force : Bool) (n inner : Nat)
    (dv : JVal) (hk : (g.get n).kind = .optional inner (some dv)) :
    renderMain g defs rec force n = (do
      let js ← rec false inner
      if pyTruthy dv then pure (setKeyJ js "default" (dump g inner dv))
      else pure js) := by
  show (match (g.get n).kind with
    | .optional inner dflt => do
      let js ← rec false inner
      match dflt with
      | some v =>
        if pyTruthy v then pure (setKeyJ js "default" (dump g inner v))
        else pure js
      | none => pure js
    | .modifier inner => rec false inner
    | .typeRef inner => rec force inner
    | _ => renderPlain g (rec false) n) = _
  rw [hk]

theorem renderMain_optional_none (g : Graph) (defs : Defs)
    (rec : Bool → Nat → Except RErr JVal) (force : Bool) (n inner : Nat)
    (hk : (g.get n).kind = .optional inner none) :
    renderMain g defs rec force n = (do
      let js ← rec false inner
      pure js) := by
  show (match (g.get n).kind with
    | .optional inner dflt => do
      let js ← rec false inner
      match dflt with
      | some v =>
        if pyTruthy v then pure (setKeyJ js "default" (dump g inner v))
        else pure js
      | none => pure js
    | .modifier inner => rec false inner
    | .typeRef inner => rec force inner
    | _ => renderPlain g (rec false) n) = _
  rw [hk]

/-- The `title`/`description` prefix built by `renderPlain` is
`titleDescFrag`. -/
theorem titleDesc_base (nd : Node) :
    (if pyStrOpt nd.description then
      setKey
        (if pyStrOpt nd.name then setKey [] "title" (.jstr (nd.name.getD ""))
         else [])
        "description" (.jstr (nd.description.getD ""))
     else
      (if pyStrOpt nd.name then setKey [] "title" (.jstr (nd.name.getD ""))
       else [])) = titleDescFrag nd := by
  cases hn : pyStrOpt nd.name <;> cases hd : pyStrOpt nd.description <;>
    simp [titleDescFrag, hn, hd, setKey]

/-- Appending semantics of `setKey` at a fresh key. -/
theorem setKey_append (js : List (String × JVal)) (k : String) (v : JVal)
    (h : k ∉ js.map Prod.fst) : setKey js k v = js ++ [(k, v)] := by
  induction js with
  | nil => rfl
  | cons kv rest ih =>
    simp only [List.map, List.mem_cons] at h
    push_neg at h
    simp only [setKey, if_neg (fun hh : kv.1 = k => h.1 hh.symm)]
    rw [ih h.2]
    rfl

theorem mem_foldl_filter (c : JVal) (rest : List (List JVal)) :
    ∀ acc : List JVal,
      c ∈ rest.foldl (fun acc ch => acc.filter (· ∈ ch)) acc ↔
        c ∈ acc ∧ ∀ l ∈ rest, c ∈ l := by
  induction rest with
  | nil => intro acc; simp
  | cons ch rest ih =>
    intro acc
    rw [List.foldl_cons, ih]
    simp only [List.mem_filter, List.mem_cons]
    constructor
    · rintro ⟨⟨h1, h2⟩, h3⟩
      exact ⟨h1, fun l hl => by
        rcases hl with rfl | hl
        · simpa using h2
        · exact h3 l hl⟩
    · rintro ⟨h1, h2⟩
      exact ⟨⟨h1, by simpa using h2 ch (Or.inl rfl)⟩, fun l hl => h2 l (Or.inr hl)⟩

/-- Membership in the `AnyOf` intersection: exactly the values lying in
every attached choice set. -/
theorem mem_interAll (ls : List (List JVal)) (hne : ls ≠ []) (c : JVal) :
    c ∈ interAll ls ↔ ∀ l ∈ ls, c ∈ l := by
  cases ls with
  | nil => exact absurd rfl hne
  | cons c0 rest =>
    show c ∈ rest.foldl (fun acc ch => acc.filter (· ∈ ch)) c0.dedup ↔ _
    rw [mem_foldl_filter]
    simp only [List.mem_dedup, List.mem_cons]
    constructor
    · rintro ⟨h1, h2⟩ l hl
      rcases hl with rfl | hl
      · exact h1
      · exact h2 l hl
    · intro h
      exact ⟨h c0 (Or.inl rfl), fun l hl => h l (Or.inr hl)⟩

theorem mem_foldl_append (c : JVal) (ls : List (List JVal)) :
    ∀ acc : List JVal,
      c ∈ ls.foldl (· ++ ·) acc ↔ c ∈ acc ∨ ∃ l ∈ ls, c ∈ l := by
  induction ls with
  | nil => intro acc; simp
  | cons l0 rest ih =>
    intro acc
    rw [List.foldl_cons, ih]
    simp only [List.mem_append, List.mem_cons]
    constructor
    · rintro ((h | h) | ⟨l, hl, hc⟩)
      · exact Or.inl h
      · exact Or.inr ⟨l0, Or.inl rfl, h⟩
      · exact Or.inr ⟨l, Or.inr hl, hc⟩
    · rintro (h | ⟨l, rfl | hl, hc⟩)
      · exact Or.inl (Or.inl h)
      · exact Or.inl (Or.inr hc)
      · exact Or.inr ⟨l, hl, hc⟩

/-- Membership in the `NoneOf` union: exactly the values lying in some
attached excluded set. -/
theorem mem_unionAll (ls : List (List JVal)) (c : JVal) :
    c ∈ unionAll ls ↔ ∃ l ∈ ls, c ∈ l := by
  show c ∈ (ls.foldl (· ++ ·) []).dedup ↔ _
  rw [List.mem_dedup, mem_foldl_append]
  simp

theorem lookupL_rangeKeys (vals : List Validator) (js : List (String × JVal))
    (q : String) (h1 : q ≠ "minimum") (h2 : q ≠ "maximum") :
    lookupL (rangeKeys vals js) q = lookupL js q := by
  simp only [rangeKeys]
  split_ifs <;>
    simp [lookupL_setKey_ne _ _ _ _ h1, lookupL_setKey_ne _ _ _ _ h2]

theorem lookupL_lengthKeysString (vals : List Validator)
    (js : List (String × JVal)) (q : String) (h1 : q ≠ "minLength")
    (h2 : q ≠ "maxLength") :
    lookupL (lengthKeysString vals js) q = lookupL js q := by
  simp only [lengthKeysString]
  split_ifs <;>
    simp [lookupL_setKey_ne _ _ _ _ h1, lookupL_setKey_ne _ _ _ _ h2]

theorem lookupL_patternKey (vals : List Validator) (js : List (String × JVal))
    (q : String) (h1 : q ≠ "pattern") :
    lookupL (patternKey vals js) q = lookupL js q := by
  simp only [patternKey]
  cases regexpVs vals <;> simp [lookupL_setKey_ne _ _ _ _ h1]

theorem lookupL_lengthKeysList (vals : List Validator)
    (js : List (String × JVal)) (q : String) (h1 : q ≠ "minItems")
    (h2 : q ≠ "maxItems") :
    lookupL (lengthKeysList vals js) q = lookupL js q := by
  simp only [lengthKeysList]
  split_ifs <;>
    simp [lookupL_setKey_ne _ _ _ _ h1, lookupL_setKey_ne _ _ _ _ h2]

theorem lookupL_uniqueKey (vals : List Validator) (js : List (String × JVal))
    (q : String) (h1 : q ≠ "uniqueItems") :
    lookupL (uniqueKey vals js) q = lookupL js q := by
  simp only [uniqueKey]
  split_ifs <;> simp [lookupL_setKey_ne _ _ _ _ h1]

/-- The kind-specific body only writes the kind-table keys: every other key
of the incoming fragment (in particular `title`, `description`, `not`,
`enum`, `default`, `$ref`, `definitions`) is preserved whenever the body
succeeds. -/
theorem renderKindBody_preserves (g : Graph) (rec1 : Nat → Except RErr JVal)
    (nd : Node) (js out : List (String × JVal)) (q : String)
    (hq1 : q ≠ "type") (hq2 : q ≠ "minLength") (hq3 : q ≠ "maxLength")
    (hq4 : q ≠ "pattern") (hq5 : q ≠ "minimum") (hq6 : q ≠ "maximum")
    (hq7 : q ≠ "items") (hq8 : q ≠ "minItems") (hq9 : q ≠ "maxItems")
    (hq10 : q ≠ "uniqueItems") (hq11 : q ≠ "properties")
    (hq12 : q ≠ "required") (hq13 : q ≠ "additionalProperties")
    (hq14 : q ≠ "anyOf") (hq15 : q ≠ "const")
    (hok : renderKindBody g rec1 nd js = .ok out) :
    lookupL out q = lookupL js q := by
  obtain ⟨kind, name, desc, vals⟩ := nd
  cases kind with
  | any => cases hok; rfl
  | string =>
    cases hok
    rw [lookupL_patternKey _ _ _ hq4, lookupL_lengthKeysString _ _ _ hq2 hq3,
      lookupL_setKey_ne _ _ _ _ hq1]
  | integer =>
    cases hok
    rw [lookupL_rangeKeys _ _ _ hq5 hq6, lookupL_setKey_ne _ _ _ _ hq1]
  | number =>
    cases hok
    rw [lookupL_rangeKeys _ _ _ hq5 hq6, lookupL_setKey_ne _ _ _ _ hq1]
  | boolean =>
    cases hok
    rw [lookupL_setKey_ne _ _ _ _ hq1]
  | list item =>
    rcases hitem : rec1 item with e | v <;>
      simp only [renderKindBody, hitem, Except.bind, bind, pure] at hok
    · cases hok
    · cases hok
      rw [lookupL_uniqueKey _ _ _ hq10, lookupL_lengthKeysList _ _ _ hq8 hq9,
        lookupL_setKey_ne _ _ _ _ hq7, lookupL_setKey_ne _ _ _ _ hq1]
  | tuple items =>
    rcases hvs : renderSeq rec1 items with e | vs <;>
      simp only [renderKindBody, hvs, Except.bind, bind, pure] at hok
    · cases hok
    · cases hok
      rw [lookupL_setKey_ne _ _ _ _ hq7, lookupL_setKey_ne _ _ _ _ hq1]
  | object fields extra =>
    rcases hprops : renderPairs rec1 fields with e | props <;>
      simp only [renderKindBody, hprops, Except.bind, bind, pure] at hok
    · cases hok
    · cases extra with
      | notSet =>
        simp only [] at hok
        split_ifs at hok <;> cases hok <;>
          simp [lookupL_setKey_ne _ _ _ _ hq12,
            lookupL_setKey_ne _ _ _ _ hq11, lookupL_setKey_ne _ _ _ _ hq1]
      | flag b =>
        simp only [] at hok
        split_ifs at hok <;> cases hok <;>
          simp [lookupL_setKey_ne _ _ _ _ hq13, lookupL_setKey_ne _ _ _ _ hq12,
            lookupL_setKey_ne _ _ _ _ hq11, lookupL_setKey_ne _ _ _ _ hq1]
      | typed fld =>
        by_cases hany : (g.get fld).kind = .any
        · simp only [hany, if_pos rfl] at hok
          split_ifs at hok <;> cases hok <;>
            simp [lookupL_setKey_ne _ _ _ _ hq13, lookupL_setKey_ne _ _ _ _ hq12,
              lookupL_setKey_ne _ _ _ _ hq11, lookupL_setKey_ne _ _ _ _ hq1]
        · rcases hfld : rec1 fld with e | v <;>
            simp only [if_neg hany, hfld, Except.bind, bind, pure] at hok
          · cases hok
          · split_ifs at hok <;> cases hok <;>
              simp [lookupL_setKey_ne _ _ _ _ hq13, lookupL_setKey_ne _ _ _ _ hq12,
                lookupL_setKey_ne _ _ _ _ hq11, lookupL_setKey_ne _ _ _ _ hq1]
  | dict fixed dflt =>
    rcases hprops : renderPairs rec1 fixed with e | props <;>
      simp only [renderKindBody, hprops, Except.bind, bind, pure] at hok
    · cases hok
    · cases hok
  | oneOf variants =>
    rcases hvs : renderSeq rec1 variants with e | vs <;>
      simp only [renderKindBody, hvs, Except.bind, bind, pure] at hok
    · cases hok
    · cases hok
      rw [lookupL_setKey_ne _ _ _ _ hq14]
  | constant v =>
    cases hok
    rw [lookupL_setKey_ne _ _ _ _ hq15]
  | optional inner dflt => cases hok; rfl
  | modifier inner => cases hok; rfl
  | typeRef inner => cases hok; rfl
  | unsupported => cases hok; rfl

/-- `renderPlain` on a node with `AnyOf` validators: the fragment becomes
only `title`/`description` plus `enum` over the intersection, or
`ConstraintError` when the intersection is empty (jsonschema.py:134-145). -/
theorem renderPlain_anyOf (g : Graph) (rec1 : Nat → Except RErr JVal) (n : Nat)
    (haos : anyOfLists (g.get n).validators ≠ []) :
    renderPlain g rec1 n =
      (if interAll (anyOfLists (g.get n).validators) = [] then
        .error .constraintError
       else
        .ok (.jobj (setKey (titleDescFrag (g.get n)) "enum"
          (.jarr ((interAll (anyOfLists (g.get n).validators)).map
            (dump g n)))))) := by
  simp only [renderPlain]
  rw [if_pos haos, titleDesc_base]

/-- `renderPlain` on a node without `AnyOf` validators: `title`/`description`
plus `not` when some `NoneOf` union is non-empty, then the kind body
(jsonschema.py:147-257). -/
theorem renderPlain_noAnyOf (g : Graph) (rec1 : Nat → Except RErr JVal)
    (n : Nat) (haos : anyOfLists (g.get n).validators = []) :
    renderPlain g rec1 n = (do
      let body ← renderKindBody g rec1 (g.get n)
        (if noneOfLists (g.get n).validators ≠ [] ∧
            unionAll (noneOfLists (g.get n).validators) ≠ [] then
          setKey (titleDescFrag (g.get n)) "not"
            (.jobj [("enum",
              .jarr ((unionAll (noneOfLists (g.get n).validators)).map
                (dump g n)))])
         else titleDescFrag (g.get n))
      pure (.jobj body)) := by
  simp only [renderPlain]
  rw [if_neg (by simp [haos]), titleDesc_base]

/-- C5 (amended): a table-kind node carrying `AnyOf` validators renders as
an enum-only fragment (plus `title`/`description`): the enum is the
intersection of all the choice sets, each value serialized through `dump`;
an empty intersection raises the constraint error, and so does a whole
compile rooted at such a node when no definition slot is allocated.
(`Modifier`/`Optional`/`TypeRef` nodes pass through to their inner node
before the validator checks, so their attached `AnyOf` validators are
ignored — see the counterexample.) -/
theorem anyof_enum_intersection (g : Graph) (defs : Defs) (f : Nat) (n : Nat)
    (hplain : isPlainKind (g.get n).kind = true)
    (hdefs : alookup defs n = none)
    (haos : anyOfLists (g.get n).validators ≠ []) :
    (interAll (anyOfLists (g.get n).validators) = [] →
      renderFuel (f + 1) g defs false n = .error .constraintError) ∧
    (interAll (anyOfLists (g.get n).validators) ≠ [] →
      renderFuel (f + 1) g defs false n =
        .ok (.jobj (titleDescFrag (g.get n) ++
          [("enum", .jarr ((interAll (anyOfLists (g.get n).validators)).map
            (dump g n)))]))) ∧
    (∀ c, c ∈ interAll (anyOfLists (g.get n).validators) ↔
      ∀ l ∈ anyOfLists (g.get n).validators, c ∈ l) ∧
    (∀ fc counts, interAll (anyOfLists (g.get n).validators) = [] →
      countFuel fc g n [] = some counts → allocDefs g counts = [] →
      compileFuel fc g n = .error .constraintError) := by
  have hrender : ∀ f' : Nat, ∀ ds : Defs, alookup ds n = none →
      renderFuel (f' + 1) g ds false n =
        renderPlain g (renderFuel f' g ds false) n := by
    intro f' ds hds
    rw [renderFuel_succ, renderStep_miss _ _ _ _ _ hds,
      renderMain_plain _ _ _ _ _ hplain]
  have henum : "enum" ∉ (titleDescFrag (g.get n)).map Prod.fst := by
    cases hn : pyStrOpt (g.get n).name <;>
      cases hd : pyStrOpt (g.get n).description <;>
        simp [titleDescFrag, hn, hd]
  refine ⟨?_, ?_, ?_, ?_⟩
  · intro hint
    rw [hrender f defs hdefs, renderPlain_anyOf g _ n haos, if_pos hint]
  · intro hint
    rw [hrender f defs hdefs, renderPlain_anyOf g _ n haos, if_neg hint,
      setKey_append _ _ _ henum]
  · intro c
    exact mem_interAll _ haos c
  · intro fc counts hint hcount hnodefs
    cases fc with
    | zero => exact absurd hcount (by simp [countFuel])
    | succ fc =>
      have h0 : renderFuel (fc + 1) g [] false n = .error .constraintError := by
        rw [hrender fc [] rfl, renderPlain_anyOf g _ n haos, if_pos hint]
      simp only [compileFuel, hcount, hnodefs, h0]
      rfl

/-- C5 witness: `AnyOf(['a','b','c'])` with `AnyOf(['b','c','d'])` yields
enum `{b, c}` (`test_type_with_multiple_any_of_validators`). -/
theorem anyof_enum_intersection_witness :
    renderFuel 3
        ⟨[{ kind := .string,
            validators := [.anyOf [.jstr "a", .jstr "b", .jstr "c"],
                           .anyOf [.jstr "b", .jstr "c", .jstr "d"]] }]⟩
        [] false 0 =
      .ok (.jobj [("enum", .jarr [.jstr "b", .jstr "c"])]) :=
  ((anyof_enum_intersection
    ⟨[{ kind := .string,
        validators := [.anyOf [.jstr "a", .jstr "b", .jstr "c"],
                       .anyOf [.jstr "b", .jstr "c", .jstr "d"]] }]⟩
    [] 2 0 (by decide) rfl (by decide)).2.1 (by decide)).trans (by decide)

/-- C7 amended: for a table-kind node with `NoneOf` validators attached and
no `AnyOf` validator, a successful render carries
`not: {enum: [...]}` over the union of all the `NoneOf` value sets (each
serialized through `dump`), and omits `not` exactly when that union is
empty.  (When an `AnyOf` validator is also attached, the enum branch
returns first and `not` is omitted; `NoneOf` validators attached to a
pass-through `Modifier`/`Optional`/`TypeRef` node are ignored entirely —
both divergences are in the counterexample.) -/
theorem noneof_not_union (g : Graph) (defs : Defs) (f : Nat) (n : Nat)
    (js : JVal)
    (hplain : isPlainKind (g.get n).kind = true)
    (hdefs : alookup defs n = none)
    (haos : anyOfLists (g.get n).validators = [])
    (hnone : noneOfLists (g.get n).validators ≠ [])
    (hok : renderFuel (f + 1) g defs false n = .ok js) :
    (unionAll (noneOfLists (g.get n).validators) ≠ [] →
      lookupJ js "not" =
        some (.jobj [("enum",
          .jarr ((unionAll (noneOfLists (g.get n).validators)).map
            (dump g n)))])) ∧
    (unionAll (noneOfLists (g.get n).validators) = [] →
      lookupJ js "not" = none) ∧
    (∀ c, c ∈ unionAll (noneOfLists (g.get n).validators) ↔
      ∃ l ∈ noneOfLists (g.get n).validators, c ∈ l) := by
  rw [renderFuel_succ, renderStep_miss _ _ _ _ _ hdefs,
    renderMain_plain _ _ _ _ _ hplain, renderPlain_noAnyOf g _ n haos] at hok
  rcases hbody : renderKindBody g (renderFuel f g defs false) (g.get n)
      (if noneOfLists (g.get n).validators ≠ [] ∧
          unionAll (noneOfLists (g.get n).validators) ≠ [] then
        setKey (titleDescFrag (g.get n)) "not"
          (.jobj [("enum",
            .jarr ((unionAll (noneOfLists (g.get n).validators)).map
              (dump g n)))])
       else titleDescFrag (g.get n)) with e | body <;>
    simp only [hbody, Except.bind, bind, pure] at hok
  · cases hok
  · cases hok
    have hnotmem : lookupL (titleDescFrag (g.get n)) "not" = none := by
      cases hn : pyStrOpt (g.get n).name <;>
        cases hd : pyStrOpt (g.get n).description <;>
          simp [titleDescFrag, hn, hd, lookupL]
    have hpres := renderKindBody_preserves g _ (g.get n) _ body "not"
      (by decide) (by decide) (by decide) (by decide) (by decide) (by decide)
      (by decide) (by decide) (by decide) (by decide) (by decide) (by decide)
      (by decide) (by decide) (by decide) hbody
    refine ⟨?_, ?_, fun c => mem_unionAll _ c⟩
    · intro huni
      show lookupL body "not" = _
      rw [hpres, if_pos ⟨hnone, huni⟩, lookupL_setKey_self]
    · intro huni
      show lookupL body "not" = _
      rw [hpres, if_neg (by simp [huni]), hnotmem]

/-- C7 amended witness: `NoneOf(['a','b'])` plus `NoneOf(['b','c'])` yields
`not.enum = {a, b, c}` (`test_type_with_multiple_none_of_validators`). -/
theorem noneof_not_union_witness :
    lookupJ (.jobj
        [("not", .jobj [("enum", .jarr [.jstr "a", .jstr "b", .jstr "c"])]),
         ("type", .jstr "string")])
      "not" =
      some (.jobj [("enum", .jarr [.jstr "a", .jstr "b", .jstr "c"])]) :=
  (noneof_not_union
    ⟨[{ kind := .string,
        validators := [.noneOf [.jstr "a", .jstr "b"],
                       .noneOf [.jstr "b", .jstr "c"]] }]⟩
    [] 2 0
    (.jobj
      [("not", .jobj [("enum", .jarr [.jstr "a", .jstr "b", .jstr "c"])]),
       ("type", .jstr "string")])
    (by decide) rfl (by decide) (by decide) (by decide)).1 (by decide)

/-! ## Counting-pass invariants -/

theorem alookup_mem {α : Type} : ∀ (m : List (Nat × α)) (n : Nat) (v : α),
    alookup m n = some v → (n, v) ∈ m := by
  intro m
  induction m with
  | nil => intro n v h; cases h
  | cons kv rest ih =>
    intro n v h
    rw [alookup] at h
    by_cases hk : kv.1 = n
    · rw [if_pos hk] at h
      cases h
      have heq : (n, kv.2) = kv := by rw [← hk]
      rw [heq]
      exact List.mem_cons_self kv rest
    · rw [if_neg hk] at h
      exact List.mem_cons_of_mem kv (ih n v h)

theorem alookup_of_mem_nodup {α : Type} :
    ∀ (m : List (Nat × α)) (n : Nat) (v : α),
    (m.map Prod.fst).Nodup → (n, v) ∈ m → alookup m n = some v := by
  intro m
  induction m with
  | nil => intro n v _ h; cases h
  | cons kv rest ih =>
    intro n v hnd hmem
    rw [List.map_cons, List.nodup_cons] at hnd
    rcases List.mem_cons.1 hmem with rfl | hmem2
    · rw [alookup, if_pos rfl]
    · have hne : kv.1 ≠ n := by
        intro hh
        exact hnd.1 (hh ▸ (List.mem_map.2 ⟨(n, v), hmem2, rfl⟩))
      rw [alookup, if_neg hne]
      exact ih n v hnd.2 hmem2

theorem cmIncr_keys (m : CMap) (n : Nat) :
    (cmIncr m n).map Prod.fst = m.map Prod.fst := by
  induction m with
  | nil => rfl
  | cons kv rest ih =>
    rw [cmIncr]
    by_cases hk : kv.1 = n
    · obtain ⟨k, c⟩ := kv
      simp only at hk
      simp [hk]
    · obtain ⟨k, c⟩ := kv
      simp only at hk
      simp only [if_neg hk, List.map_cons, ih]

/-- Induction principle for the child loop: any property preserved by each
counting step is preserved by the loop. -/
theorem countSeq_preserve (P : CMap → Prop) (step : Nat → CMap → Option CMap)
    (hstep : ∀ n m r, step n m = some r → P m → P r) :
    ∀ (ns : List Nat) (m r : CMap),
      countSeq step ns m = some r → P m → P r := by
  intro ns
  induction ns with
  | nil => intro m r h hp; cases h; exact hp
  | cons n rest ih =>
    intro m r h hp
    rw [countSeq] at h
    rcases hs : step n m with _ | m2
    · rw [hs] at h; cases h
    · rw [hs] at h
      exact ih m2 r h (hstep n m m2 hs hp)

/-- Keys only grow along the counting pass. -/
theorem countFuel_keys_mono : ∀ (fuel : Nat) (g : Graph) (n : Nat)
    (m r : CMap) (k : Nat), countFuel fuel g n m = some r →
    k ∈ m.map Prod.fst → k ∈ r.map Prod.fst := by
  intro fuel
  induction fuel with
  | zero => intro g n m r k h; cases h
  | succ fuel ih =>
    intro g n m r k h hk
    rw [countFuel_succ] at h
    rw [countStep] at h
    by_cases hl : (alookup m n).isSome = true
    · rw [if_pos hl] at h
      cases h
      rw [cmIncr_keys]
      exact hk
    · rw [if_neg hl] at h
      cases hkind : (g.get n).kind <;> rw [hkind] at h
      all_goals first
        | exact ih g _ m r k h hk
        | exact countSeq_preserve (fun mm => k ∈ mm.map Prod.fst) _
            (fun n2 m2 r2 hh hp => ih g n2 m2 r2 k hh hp) _ _ r h
            (by
              show k ∈ (m ++ [(n, 1)]).map Prod.fst
              rw [List.map_append]
              exact List.mem_append_left _ hk)

/-- Every key of the produced counts is either an input key or a
non-`TypeRef` node (the pass never records reference nodes). -/
theorem countFuel_keys_kind : ∀ (fuel : Nat) (g : Graph) (n : Nat)
    (m r : CMap) (k : Nat), countFuel fuel g n m = some r →
    k ∈ r.map Prod.fst →
    k ∈ m.map Prod.fst ∨ ∀ i, (g.get k).kind ≠ .typeRef i := by
  intro fuel
  induction fuel with
  | zero => intro g n m r k h; cases h
  | succ fuel ih =>
    intro g n m r k h hk
    rw [countFuel_succ, countStep] at h
    by_cases hl : (alookup m n).isSome = true
    · rw [if_pos hl] at h
      cases h
      rw [cmIncr_keys] at hk
      exact Or.inl hk
    · rw [if_neg hl] at h
      cases hkind : (g.get n).kind <;> rw [hkind] at h
      all_goals first
      | exact ih g _ m r k h hk
      | {
        have hseq := countSeq_preserve
          (fun mm => ∀ k2, k2 ∈ mm.map Prod.fst →
            k2 ∈ (m ++ [(n, 1)]).map Prod.fst ∨
              ∀ i, (g.get k2).kind ≠ .typeRef i)
          _ (fun n2 m2 r2 hh hp k2 hk2 => by
            rcases ih g n2 m2 r2 k2 hh hk2 with h2 | h2
            · exact hp k2 h2
            · exact Or.inr h2) _ _ r h (fun k2 hk2 => Or.inl hk2)
        rcases hseq k hk with h2 | h2
        · rw [List.map_append] at h2
          rcases List.mem_append.1 h2 with h3 | h3
          · exact Or.inl h3
          · simp at h3
            subst h3
            exact Or.inr (fun i hh => by rw [hkind] at hh; cases hh)
        · exact Or.inr h2
      }

/-- The counting pass keeps counts keys duplicate-free. -/
theorem countFuel_nodup : ∀ (fuel : Nat) (g : Graph) (n : Nat) (m r : CMap),
    countFuel fuel g n m = some r → (m.map Prod.fst).Nodup →
    (r.map Prod.fst).Nodup := by
  intro fuel
  induction fuel with
  | zero => intro g n m r h; cases h
  | succ fuel ih =>
    intro g n m r h hnd
    rw [countFuel_succ, countStep] at h
    by_cases hl : (alookup m n).isSome = true
    · rw [if_pos hl] at h
      cases h
      rw [cmIncr_keys]
      exact hnd
    · rw [if_neg hl] at h
      have hnotmem : n ∉ m.map Prod.fst := by
        intro hmem
        rw [(alookup_isSome m n).2 hmem] at hl
        exact hl rfl
      have hnd2 : ((m ++ [(n, 1)]).map Prod.fst).Nodup := by
        rw [List.map_append]
        exact hnd.append (by simp)
          (fun a ha hb => by simp at hb; subst hb; exact hnotmem ha)
      cases hkind : (g.get n).kind <;> rw [hkind] at h
      all_goals first
      | exact ih g _ m r h hnd
      | exact countSeq_preserve (fun mm => (mm.map Prod.fst).Nodup) _
          (fun n2 m2 r2 hh hp => ih g n2 m2 r2 hh hp) _ _ r h hnd2

theorem countSeq_congr (step1 step2 : Nat → CMap → Option CMap)
    (hrec : ∀ n m r, step1 n m = some r → step2 n m = some r) :
    ∀ (ns : List Nat) (m r : CMap),
      countSeq step1 ns m = some r → countSeq step2 ns m = some r := by
  intro ns
  induction ns with
  | nil => intro m r h; exact h
  | cons n rest ih =>
    intro m r h
    rw [countSeq] at h ⊢
    rcases hs : step1 n m with _ | m2
    · rw [hs] at h; cases h
    · rw [hs] at h
      rw [hrec n m m2 hs]
      exact ih m2 r h

theorem countStep_congr (g : Graph) (rec1 rec2 : Nat → CMap → Option CMap)
    (hrec : ∀ n m r, rec1 n m = some r → rec2 n m = some r)
    (n : Nat) (m r : CMap) (h : countStep g rec1 n m = some r) :
    countStep g rec2 n m = some r := by
  rw [countStep] at h ⊢
  by_cases hl : (alookup m n).isSome = true
  · rw [if_pos hl] at h ⊢
    exact h
  · rw [if_neg hl] at h ⊢
    cases hkind : (g.get n).kind <;> rw [hkind] at h <;>
      first
        | exact hrec _ _ _ h
        | exact countSeq_congr _ _ hrec _ _ _ h

/-- Success of the counting pass is stable under more fuel, with the same
result. -/
theorem countFuel_succ_mono : ∀ (fuel : Nat) (g : Graph) (n : Nat)
    (m r : CMap), countFuel fuel g n m = some r →
    countFuel (fuel + 1) g n m = some r := by
  intro fuel
  induction fuel with
  | zero => intro g n m r h; cases h
  | succ fuel ih =>
    intro g n m r h
    rw [countFuel_succ] at h ⊢
    exact countStep_congr g _ _ (fun n2 m2 r2 hh => ih g n2 m2 r2 hh) n m r h

theorem countFuel_mono (g : Graph) (n : Nat) (m r : CMap) (f1 f2 : Nat)
    (hle : f1 ≤ f2) (h : countFuel f1 g n m = some r) :
    countFuel f2 g n m = some r := by
  induction f2, hle using Nat.le_induction with
  | base => exact h
  | succ f2 hle ih => exact countFuel_succ_mono f2 g n m r ih

/-- Extending the initial counts map with an entry for a node the run never
reaches commutes with the run: the entry is carried through untouched.
(`optn`'s kind must not be a `TypeRef`, so reference nodes in the run can
never alias it.) -/
theorem countFuel_extend (g : Graph) (optn c : Nat)
    (hknd : ∀ i, (g.get optn).kind ≠ .typeRef i) :
    ∀ (fuel : Nat) (n : Nat) (m r : CMap),
      countFuel fuel g n m = some r → alookup r optn = none →
      countFuel fuel g n ((optn, c) :: m) = some ((optn, c) :: r) := by
  intro fuel
  induction fuel with
  | zero => intro n m r h; cases h
  | succ fuel ih =>
    intro n m r h hmiss
    have hmiss_not : optn ∉ r.map Prod.fst := (alookup_eq_none r optn).1 hmiss
    have hlift : ∀ n2, n2 ≠ optn →
        alookup ((optn, c) :: m) n2 = alookup m n2 := by
      intro n2 hne
      rw [alookup, if_neg (fun hh => hne hh.symm)]
    rw [countFuel_succ, countStep] at h ⊢
    by_cases hl : (alookup m n).isSome = true
    · rw [if_pos hl] at h
      cases h
      have hne : n ≠ optn := by
        intro hh
        rw [cmIncr_keys] at hmiss_not
        exact hmiss_not (hh ▸ (alookup_isSome m n).1 hl)
      rw [hlift n hne, if_pos hl]
      have hincr : cmIncr ((optn, c) :: m) n = (optn, c) :: cmIncr m n := by
        rw [cmIncr, if_neg (fun hh => hne hh.symm)]
      rw [hincr]
    · rw [if_neg hl] at h
      cases hkind : (g.get n).kind <;> rw [hkind] at h
      all_goals first
      | {
        have hne : n ≠ optn := by
          intro hh
          exact hknd _ (by rw [← hh]; exact hkind)
        rw [hlift n hne, if_neg hl]
        exact ih _ m r h hmiss
      }
      | {
        have hseqmono : ∀ (ns : List Nat) (m0 r0 : CMap),
            countSeq (countFuel fuel g) ns m0 = some r0 →
            ∀ k, k ∈ m0.map Prod.fst → k ∈ r0.map Prod.fst := by
          intro ns m0 r0 hseq k hk
          exact countSeq_preserve (fun mm => k ∈ mm.map Prod.fst) _
            (fun n2 m2 r2 hh hp => countFuel_keys_mono fuel g n2 m2 r2 k hh hp)
            ns m0 r0 hseq hk
        have hmem : n ∈ ((m ++ [(n, 1)]).map Prod.fst) := by
          rw [List.map_append]
          exact List.mem_append_right _ (by simp)
        have hne : n ≠ optn := by
          intro hh
          exact hmiss_not (hh ▸ hseqmono _ _ _ h n hmem)
        rw [hlift n hne, if_neg hl]
        have hext : ∀ (ns : List Nat) (m0 r0 : CMap),
            countSeq (countFuel fuel g) ns m0 = some r0 →
            alookup r0 optn = none →
            countSeq (countFuel fuel g) ns ((optn, c) :: m0) =
              some ((optn, c) :: r0) := by
          intro ns
          induction ns with
          | nil => intro m0 r0 hh hm0; cases hh; rfl
          | cons n2 rest ih2 =>
            intro m0 r0 hh hm0
            rw [countSeq] at hh ⊢
            rcases hs : countFuel fuel g n2 m0 with _ | m2
            · rw [hs] at hh; cases hh
            · rw [hs] at hh
              have hm2 : alookup m2 optn = none := by
                rw [alookup_eq_none]
                intro hmem2
                exact ((alookup_eq_none r0 optn).1 hm0)
                  (countSeq_preserve (fun mm => optn ∈ mm.map Prod.fst) _
                    (fun n3 m3 r3 h3 hp =>
                      countFuel_keys_mono fuel g n3 m3 r3 optn h3 hp)
                    rest m2 r0 hh hmem2)
              rw [ih n2 m0 m2 hs hm2]
              exact ih2 m2 r0 hh hm0
        rw [List.cons_append]
        exact hext _ _ _ h hmiss
      }

/-! ## Renderer monotonicity in fuel -/

theorem renderSeq_congr (r1 r2 : Nat → Except RErr JVal)
    (hrec : ∀ n v, r1 n = .ok v → r2 n = .ok v) :
    ∀ (ns : List Nat) (vs : List JVal),
      renderSeq r1 ns = .ok vs → renderSeq r2 ns = .ok vs := by
  intro ns
  induction ns with
  | nil => intro vs h; exact h
  | cons n rest ih =>
    intro vs h
    rw [renderSeq] at h ⊢
    rcases hn : r1 n with e | v <;>
      simp only [hn, Except.bind, bind] at h
    · cases h
    · rcases hr : renderSeq r1 rest with e | vs2 <;>
        simp only [hr, Except.bind, bind, pure] at h
      · cases h
      · cases h
        simp only [hrec n v hn, ih _ hr, Except.bind, bind, pure]
        rfl

theorem renderPairs_congr (r1 r2 : Nat → Except RErr JVal)
    (hrec : ∀ n v, r1 n = .ok v → r2 n = .ok v) :
    ∀ (ns : List (String × Nat)) (vs : List (String × JVal)),
      renderPairs r1 ns = .ok vs → renderPairs r2 ns = .ok vs := by
  intro ns
  induction ns with
  | nil => intro vs h; exact h
  | cons kn rest ih =>
    intro vs h
    obtain ⟨k, n⟩ := kn
    rw [renderPairs] at h ⊢
    rcases hn : r1 n with e | v <;>
      simp only [hn, Except.bind, bind] at h
    · cases h
    · rcases hr : renderPairs r1 rest with e | vs2 <;>
        simp only [hr, Except.bind, bind, pure] at h
      · cases h
      · cases h
        simp only [hrec n v hn, ih _ hr, Except.bind, bind, pure]
        rfl

theorem renderKindBody_congr (g : Graph) (r1 r2 : Nat → Except RErr JVal)
    (hrec : ∀ n v, r1 n = .ok v → r2 n = .ok v) (nd : Node)
    (js out : List (String × JVal))
    (hok : renderKindBody g r1 nd js = .ok out) :
    renderKindBody g r2 nd js = .ok out := by
  obtain ⟨kind, name, desc, vals⟩ := nd
  cases kind <;> try exact hok
  case list item =>
    rcases hitem : r1 item with e | v <;>
      simp only [renderKindBody, hitem, Except.bind, bind, pure] at hok
    · cases hok
    · simp only [renderKindBody, hrec item v hitem, Except.bind, bind, pure]
      exact hok
  case tuple items =>
    rcases hvs : renderSeq r1 items with e | vs <;>
      simp only [renderKindBody, hvs, Except.bind, bind, pure] at hok
    · cases hok
    · simp only [renderKindBody, renderSeq_congr r1 r2 hrec items vs hvs,
        Except.bind, bind, pure]
      exact hok
  case object fields extra =>
    rcases hprops : renderPairs r1 fields with e | props <;>
      simp only [renderKindBody, hprops, Except.bind, bind, pure] at hok
    · cases hok
    · simp only [renderKindBody, renderPairs_congr r1 r2 hrec fields props hprops,
        Except.bind, bind, pure]
      cases extra with
      | notSet => exact hok
      | flag b => exact hok
      | typed fld =>
        by_cases hany : (g.get fld).kind = .any
        · simp only [hany, if_pos rfl] at hok ⊢
          exact hok
        · simp only [if_neg hany] at hok ⊢
          rcases hfld : r1 fld with e | v <;>
            simp only [hfld, Except.bind, bind, pure] at hok
          · cases hok
          · simp only [hrec fld v hfld, Except.bind, bind, pure]
            exact hok
  case dict fixed dflt =>
    rcases hprops : renderPairs r1 fixed with e | props <;>
      simp only [renderKindBody, hprops, Except.bind, bind, pure] at hok
    · cases hok
    · cases hok
  case oneOf variants =>
    rcases hvs : renderSeq r1 variants with e | vs <;>
      simp only [renderKindBody, hvs, Except.bind, bind, pure] at hok
    · cases hok
    · simp only [renderKindBody, renderSeq_congr r1 r2 hrec variants vs hvs,
        Except.bind, bind, pure]
      exact hok

theorem renderPlain_congr (g : Graph) (r1 r2 : Nat → Except RErr JVal)
    (hrec : ∀ n v, r1 n = .ok v → r2 n = .ok v) (n : Nat) (v : JVal)
    (hok : renderPlain g r1 n = .ok v) : renderPlain g r2 n = .ok v := by
  by_cases haos : anyOfLists (g.get n).validators = []
  · rw [renderPlain_noAnyOf g r1 n haos] at hok
    rw [renderPlain_noAnyOf g r2 n haos]
    rcases hbody : renderKindBody g r1 (g.get n) _ with e | body <;>
      rw [hbody] at hok
    · cases hok
    · rw [renderKindBody_congr g r1 r2 hrec _ _ _ hbody]
      exact hok
  · rw [renderPlain_anyOf g r1 n haos] at hok
    rw [renderPlain_anyOf g r2 n haos]
    exact hok

theorem renderMain_congr (g : Graph) (defs : Defs)
    (rec1 rec2 : Bool → Nat → Except RErr JVal)
    (hrec : ∀ b n v, rec1 b n = .ok v → rec2 b n = .ok v)
    (force : Bool) (n : Nat) (v : JVal)
    (hok : renderMain g defs rec1 force n = .ok v) :
    renderMain g defs rec2 force n = .ok v := by
  cases hkind : (g.get n).kind with
  | optional inner dflt =>
    cases dflt with
    | some dv =>
      rw [renderMain_optional_some g defs rec1 force n inner dv hkind] at hok
      rw [renderMain_optional_some g defs rec2 force n inner dv hkind]
      rcases hinner : rec1 false inner with e | js <;>
        simp only [hinner, Except.bind, bind, pure] at hok
      · cases hok
      · simp only [hrec false inner js hinner, Except.bind, bind, pure]
        exact hok
    | none =>
      rw [renderMain_optional_none g defs rec1 force n inner hkind] at hok
      rw [renderMain_optional_none g defs rec2 force n inner hkind]
      rcases hinner : rec1 false inner with e | js <;>
        simp only [hinner, Except.bind, bind, pure] at hok
      · cases hok
      · simp only [hrec false inner js hinner, Except.bind, bind, pure]
        exact hok
  | modifier inner =>
    rw [renderMain_modifier g defs rec1 force n inner hkind] at hok
    rw [renderMain_modifier g defs rec2 force n inner hkind]
    exact hrec false inner v hok
  | typeRef inner =>
    rw [renderMain_typeRef g defs rec1 force n inner hkind] at hok
    rw [renderMain_typeRef g defs rec2 force n inner hkind]
    exact hrec force inner v hok
  | _ =>
    rw [renderMain_plain g defs rec1 force n (by simp [isPlainKind, hkind])] at hok
    rw [renderMain_plain g defs rec2 force n (by simp [isPlainKind, hkind])]
    exact renderPlain_congr g _ _ (fun n2 v2 hh => hrec false n2 v2 hh) n v hok

theorem renderStep_congr_ok (g : Graph) (defs : Defs)
    (rec1 rec2 : Bool → Nat → Except RErr JVal)
    (hrec : ∀ b n v, rec1 b n = .ok v → rec2 b n = .ok v)
    (force : Bool) (n : Nat) (v : JVal)
    (hok : renderStep g defs rec1 force n = .ok v) :
    renderStep g defs rec2 force n = .ok v := by
  rcases hl : alookup defs n with _ | nm
  · rw [renderStep_miss g defs rec1 force n hl] at hok
    rw [renderStep_miss g defs rec2 force n hl]
    exact renderMain_congr g defs rec1 rec2 hrec force n v hok
  · cases force
    · rw [renderStep_ref g defs rec1 n nm hl] at hok
      rw [renderStep_ref g defs rec2 n nm hl]
      exact hok
    · rw [renderStep_forced g defs rec1 n] at hok
      rw [renderStep_forced g defs rec2 n]
      exact renderMain_congr g defs rec1 rec2 hrec true n v hok

/-- Success of the renderer is stable under more fuel, with the same
result. -/
theorem renderFuel_succ_mono : ∀ (fuel : Nat) (g : Graph) (defs : Defs)
    (b : Bool) (n : Nat) (v : JVal), renderFuel fuel g defs b n = .ok v →
    renderFuel (fuel + 1) g defs b n = .ok v := by
  intro fuel
  induction fuel with
  | zero => intro g defs b n v h; cases h
  | succ fuel ih =>
    intro g defs b n v h
    rw [renderFuel_succ] at h ⊢
    exact renderStep_congr_ok g defs _ _
      (fun b2 n2 v2 hh => ih g defs b2 n2 v2 hh) b n v h

theorem renderFuel_mono (g : Graph) (defs : Defs) (b : Bool) (n : Nat)
    (v : JVal) (f1 f2 : Nat) (hle : f1 ≤ f2)
    (h : renderFuel f1 g defs b n = .ok v) :
    renderFuel f2 g defs b n = .ok v := by
  induction f2, hle using Nat.le_induction with
  | base => exact h
  | succ f2 hle ih => exact renderFuel_succ_mono f2 g defs b n v ih

theorem renderBodies_congr (r1 r2 : Bool → Nat → Except RErr JVal)
    (hrec : ∀ b n v, r1 b n = .ok v → r2 b n = .ok v) :
    ∀ (ds : Defs) (bodies : List (String × JVal)),
      renderBodies r1 ds = .ok bodies → renderBodies r2 ds = .ok bodies := by
  intro ds
  induction ds with
  | nil => intro bodies h; exact h
  | cons d rest ih =>
    intro bodies h
    obtain ⟨n, nm⟩ := d
    rw [renderBodies] at h ⊢
    rcases hn : r1 true n with e | v <;>
      simp only [hn, Except.bind, bind] at h
    · cases h
    · rcases hr : renderBodies r1 rest with e | bs <;>
        simp only [hr, Except.bind, bind, pure] at h
      · cases h
      · cases h
        simp only [hrec true n v hn, ih _ hr, Except.bind, bind, pure]
        rfl

/-- The names of rendered definition bodies are the allocated slot names,
in order. -/
theorem renderBodies_names (rend : Bool → Nat → Except RErr JVal) :
    ∀ (ds : Defs) (bodies : List (String × JVal)),
      renderBodies rend ds = .ok bodies →
      bodies.map Prod.fst = ds.map Prod.snd := by
  intro ds
  induction ds with
  | nil => intro bodies h; cases h; rfl
  | cons d rest ih =>
    intro bodies h
    obtain ⟨n, nm⟩ := d
    rw [renderBodies] at h
    rcases hn : rend true n with e | v <;>
      simp only [hn, Except.bind, bind] at h
    · cases h
    · rcases hr : renderBodies rend rest with e | bs <;>
        simp only [hr, Except.bind, bind, pure] at h
      · cases h
      · cases h
        simp only [List.map_cons, ih _ hr]

/-! ## Shape of rendered fragments -/

theorem lookupL_titleDesc (nd : Node) (q : String) (hq1 : q ≠ "title")
    (hq2 : q ≠ "description") : lookupL (titleDescFrag nd) q = none := by
  have h1 : ¬"title" = q := fun hh => hq1 hh.symm
  have h2 : ¬"description" = q := fun hh => hq2 hh.symm
  simp only [titleDescFrag]
  split_ifs <;> simp [lookupL, h1, h2]

/-- Every successful render is a JSON object, and it never carries a
`definitions` key (only the top level attaches one). -/
theorem renderPlain_shape (g : Graph) (rec1 : Nat → Except RErr JVal)
    (n : Nat) (v : JVal) (hok : renderPlain g rec1 n = .ok v) :
    ∃ es, v = .jobj es ∧ lookupL es "definitions" = none := by
  by_cases haos : anyOfLists (g.get n).validators = []
  · rw [renderPlain_noAnyOf g rec1 n haos] at hok
    rcases hbody : renderKindBody g rec1 (g.get n)
        (if noneOfLists (g.get n).validators ≠ [] ∧
            unionAll (noneOfLists (g.get n).validators) ≠ [] then
          setKey (titleDescFrag (g.get n)) "not"
            (.jobj [("enum",
              .jarr ((unionAll (noneOfLists (g.get n).validators)).map
                (dump g n)))])
         else titleDescFrag (g.get n)) with e | body <;>
      simp only [hbody, Except.bind, bind, pure] at hok
    · cases hok
    · cases hok
      refine ⟨body, rfl, ?_⟩
      rw [renderKindBody_preserves g rec1 _ _ _ "definitions"
        (by decide) (by decide) (by decide) (by decide) (by decide) (by decide)
        (by decide) (by decide) (by decide) (by decide) (by decide) (by decide)
        (by decide) (by decide) (by decide) hbody]
      split_ifs
      · rw [lookupL_setKey_ne _ _ _ _ (by decide)]
        exact lookupL_titleDesc _ _ (by decide) (by decide)
      · exact lookupL_titleDesc _ _ (by decide) (by decide)
  · rw [renderPlain_anyOf g rec1 n haos] at hok
    split_ifs at hok
    cases hok
    refine ⟨_, rfl, ?_⟩
    rw [lookupL_setKey_ne _ _ _ _ (by decide)]
    exact lookupL_titleDesc _ _ (by decide) (by decide)

theorem renderMain_shape (g : Graph) (defs : Defs)
    (rec : Bool → Nat → Except RErr JVal)
    (hrec : ∀ b n v, rec b n = .ok v →
      ∃ es, v = .jobj es ∧ lookupL es "definitions" = none)
    (force : Bool) (n : Nat) (v : JVal)
    (hok : renderMain g defs rec force n = .ok v) :
    ∃ es, v = .jobj es ∧ lookupL es "definitions" = none := by
  cases hkind : (g.get n).kind with
  | optional inner dflt =>
    cases dflt with
    | some dv =>
      rw [renderMain_optional_some g defs rec force n inner dv hkind] at hok
      rcases hinner : rec false inner with e | js <;>
        simp only [hinner, Except.bind, bind, pure] at hok
      · cases hok
      · obtain ⟨es, rfl, hnone⟩ := hrec false inner js hinner
        by_cases ht : pyTruthy dv = true
        · rw [if_pos ht] at hok
          cases hok
          exact ⟨setKey es "default" (dump g inner dv), rfl,
            by rw [lookupL_setKey_ne _ _ _ _ (by decide)]; exact hnone⟩
        · rw [if_neg ht] at hok
          cases hok
          exact ⟨es, rfl, hnone⟩
    | none =>
      rw [renderMain_optional_none g defs rec force n inner hkind] at hok
      rcases hinner : rec false inner with e | js <;>
        simp only [hinner, Except.bind, bind, pure] at hok
      · cases hok
      · cases hok
        exact hrec false inner _ hinner
  | modifier inner =>
    rw [renderMain_modifier g defs rec force n inner hkind] at hok
    exact hrec false inner v hok
  | typeRef inner =>
    rw [renderMain_typeRef g defs rec force n inner hkind] at hok
    exact hrec force inner v hok
  | _ =>
    rw [renderMain_plain g defs rec force n (by simp [isPlainKind, hkind])] at hok
    exact renderPlain_shape g _ n v hok

theorem renderFuel_shape : ∀ (fuel : Nat) (g : Graph) (defs : Defs)
    (b : Bool) (n : Nat) (v : JVal), renderFuel fuel g defs b n = .ok v →
    ∃ es, v = .jobj es ∧ lookupL es "definitions" = none := by
  intro fuel
  induction fuel with
  | zero => intro g defs b n v h; cases h
  | succ fuel ih =>
    intro g defs b n v h
    rw [renderFuel_succ] at h
    rcases hl : alookup defs n with _ | nm
    · rw [renderStep_miss g defs _ b n hl] at h
      exact renderMain_shape g defs _ (fun b2 n2 v2 hh => ih g defs b2 n2 v2 hh)
        b n v h
    · cases b
      · rw [renderStep_ref g defs _ n nm hl] at h
        cases h
        exact ⟨_, rfl, rfl⟩
      · rw [renderStep_forced g defs _ n] at h
        exact renderMain_shape g defs _ (fun b2 n2 v2 hh => ih g defs b2 n2 v2 hh)
          true n v h

/-! ## Sanitizer equivalence (code two-pass regexes vs spec recipe) -/

/-- Interpretation of a pending separator run against the state of the
processed suffix: a lowercase head absorbs the run and capitalizes, an
absorbing head deletes it, a plain head keeps it. -/
def applyPending (pending : List Char) : List Char × CamelSt → List Char
  | (acc, st) =>
    if pending.isEmpty then acc
    else
      match st with
      | .lowerHead => capitalizeHead acc
      | .absorbing => acc
      | .plain => pending ++ acc

theorem applyPending_nil (p : List Char × CamelSt) : applyPending [] p = p.1 := by
  obtain ⟨acc, st⟩ := p
  simp [applyPending, List.isEmpty]

theorem camelGo_eq_fold : ∀ (l pending : List Char),
    (∀ c ∈ pending, isSep c = true) →
    camelGo pending l = applyPending pending (l.foldr camelStep ([], .plain)) := by
  intro l
  induction l with
  | nil =>
    intro pending hp
    obtain _ | ⟨p0, ps⟩ := pending <;> simp [camelGo, applyPending, List.isEmpty]
  | cons c rest ih =>
    intro pending hp
    rw [List.foldr_cons]
    rcases hF : rest.foldr camelStep ([], CamelSt.plain) with ⟨acc, st⟩
    by_cases hsep : isSep c = true
    · rw [camelGo, if_pos hsep, ih (pending ++ [c]) (by
        intro x hx
        rcases List.mem_append.1 hx with h | h
        · exact hp x h
        · simp at h; rw [h]; exact hsep), hF]
      cases st <;> obtain _ | ⟨p0, ps⟩ := pending <;>
        simp [camelStep, hsep, applyPending, List.isEmpty, capitalizeHead]
    · have hstep : camelStep c (acc, st) =
          (c :: acc, if c.isLower then .lowerHead else .plain) := by
        simp [camelStep, hsep]
      rw [camelGo, if_neg hsep, hstep]
      have hrest : camelGo [] rest = acc := by
        rw [ih [] (by intro x hx; cases hx), hF, applyPending_nil]
      by_cases hlow : c.isLower = true
      · obtain _ | ⟨p0, ps⟩ := pending
        · simp only [List.isEmpty, Bool.not_false, Bool.and_true, hlow,
            Bool.not_true, Bool.and_false]
          simp [hrest, applyPending, List.isEmpty, hlow]
        · have hcond : (c.isLower && !(p0 :: ps).isEmpty) = true := by
            simp [List.isEmpty, hlow]
          rw [hcond]
          simp only [if_pos rfl]
          simp [hrest, applyPending, List.isEmpty, hlow, capitalizeHead]
      · have hcond : (c.isLower && !pending.isEmpty) = false := by
          simp [hlow]
        rw [hcond]
        simp only [Bool.false_eq_true, if_false]
        obtain _ | ⟨p0, ps⟩ := pending <;>
          simp [hrest, applyPending, List.isEmpty, hlow]

theorem collapseGo_eq_specCollapse : ∀ l : List Char,
    collapseGo false l = specCollapse l ∧
    collapseGo true l = specCollapse (l.dropWhile (fun d => !isValidChar d)) := by
  intro l
  induction l with
  | nil => constructor <;> simp [collapseGo, specCollapse]
  | cons c rest ih =>
    by_cases hv : isValidChar c = true
    · constructor
      · rw [collapseGo, if_pos hv, specCollapse, if_pos hv, ih.1]
      · rw [collapseGo, if_pos hv, List.dropWhile_cons]
        simp only [hv, Bool.not_true, Bool.false_eq_true, if_false]
        rw [specCollapse, if_pos hv, ih.1]
    · constructor
      · rw [collapseGo, if_neg hv, specCollapse, if_neg hv, ih.2]
        simp
      · rw [collapseGo, if_neg hv, List.dropWhile_cons]
        have hnv : (!isValidChar c) = true := by simp [hv]
        simp only [hnv, if_pos]
        exact ih.2

/-- The code's `_sanitize_name` computes exactly the amended spec recipe. -/
theorem sanitizeName_eq_spec (s : String) :
    sanitizeName s = specSanitizeName s := by
  unfold sanitizeName specSanitizeName
  rw [(collapseGo_eq_specCollapse s.data).1,
    camelGo_eq_fold _ [] (by intro x hx; cases hx), applyPending_nil]
  rfl

/-- `pickName` satisfies the smallest-free-suffix specification. -/
theorem pickName_least (taken : List String) (base : String) :
    LeastSuffixSpec taken base (pickName taken base) := by
  by_cases hb : base ∈ taken
  · right
    refine ⟨hb, ?_⟩
    obtain ⟨k, h1, h2, h3, h4⟩ := allocSuffix_spec taken base
    exact ⟨k, h1, by rw [pickName, if_pos hb]; exact h2, by
      rw [pickName, if_pos hb, h2]; exact h3, h4⟩
  · left
    exact ⟨hb, by rw [pickName, if_neg hb]⟩

/-- Definition slots are allocated exactly for the nodes counted more than
once, in first-registration (counts) order. -/
theorem allocGo_keys (g : Graph) : ∀ (l : List (Nat × Nat)) (taken : List String),
    (allocGo g l taken).map Prod.fst =
      (l.filter fun nc => nc.2 != 1).map Prod.fst := by
  intro l
  induction l with
  | nil => intro taken; rfl
  | cons nc rest ih =>
    intro taken
    by_cases hc : nc.2 = 1
    · obtain ⟨n, c⟩ := nc
      simp only at hc
      rw [allocGo]
      simp only [hc, if_pos rfl, List.filter_cons]
      simpa using ih taken
    · obtain ⟨n, c⟩ := nc
      simp only at hc
      rw [allocGo]
      simp only [if_neg hc, List.filter_cons]
      have : (c != 1) = true := by simpa using hc
      simp only [this, if_pos]
      simp only [List.map_cons]
      rw [ih]

/-! ## Definition-allocation lemmas -/

/-- In a counts map with duplicate-free keys, a key determines its count. -/
theorem nodup_keys_eq {α : Type} : ∀ (l : List (Nat × α)) (n : Nat) (a b : α),
    (l.map Prod.fst).Nodup → (n, a) ∈ l → (n, b) ∈ l → a = b := by
  intro l
  induction l with
  | nil => intro n a b _ ha; cases ha
  | cons kv rest ih =>
    intro n a b hnd ha hb
    rw [List.map_cons, List.nodup_cons] at hnd
    rcases List.mem_cons.1 ha with rfl | ha2
    · rcases List.mem_cons.1 hb with heq | hb2
      · exact ((Prod.ext_iff.1 heq).2).symm
      · exact absurd (List.mem_map.2 ⟨(n, b), hb2, rfl⟩) hnd.1
    · rcases List.mem_cons.1 hb with rfl | hb2
      · exact absurd (List.mem_map.2 ⟨(n, a), ha2, rfl⟩) hnd.1
      · exact ih n a b hnd.2 ha2 hb2

/-- A node never reached has no definition slot. -/
theorem alookup_allocDefs_none (g : Graph) (counts : CMap) (n : Nat)
    (hmiss : alookup counts n = none) :
    alookup (allocDefs g counts) n = none := by
  rw [alookup_eq_none]
  intro hmem
  rw [allocDefs, allocGo_keys] at hmem
  obtain ⟨nc, hnc, rfl⟩ := List.mem_map.1 hmem
  exact (alookup_eq_none counts nc.1).1 hmiss
    (List.mem_map.2 ⟨nc, List.mem_of_mem_filter hnc, rfl⟩)

/-- A node counted exactly once gets no definition slot. -/
theorem alookup_allocDefs_one (g : Graph) (counts : CMap) (n : Nat)
    (hnd : (counts.map Prod.fst).Nodup) (h1 : alookup counts n = some 1) :
    alookup (allocDefs g counts) n = none := by
  rw [alookup_eq_none]
  intro hmem
  rw [allocDefs, allocGo_keys] at hmem
  obtain ⟨nc, hnc, hfst⟩ := List.mem_map.1 hmem
  obtain ⟨hmem2, hne⟩ := List.mem_filter.1 hnc
  have : nc.2 = 1 := by
    have := nodup_keys_eq counts n 1 nc.2 hnd (alookup_mem counts n 1 h1)
      (by rw [← hfst]; simpa using hmem2)
    exact this.symm
  simp [this] at hne

/-- A node counted more than once gets a definition slot. -/
theorem allocGo_alookup_promoted (g : Graph) : ∀ (l : List (Nat × Nat))
    (taken : List String) (n c : Nat), (l.map Prod.fst).Nodup →
    alookup l n = some c → c ≠ 1 →
    ∃ nm, alookup (allocGo g l taken) n = some nm := by
  intro l
  induction l with
  | nil => intro taken n c _ h; cases h
  | cons nc rest ih =>
    intro taken n c hnd hl hc
    obtain ⟨n0, c0⟩ := nc
    rw [List.map_cons, List.nodup_cons] at hnd
    rw [alookup] at hl
    by_cases hn : n0 = n
    · simp only at hn
      rw [if_pos hn] at hl
      cases hl
      rw [allocGo]
      simp only [if_neg hc]
      exact ⟨_, by rw [alookup, if_pos hn]⟩
    · simp only at hn
      rw [if_neg hn] at hl
      rw [allocGo]
      by_cases hc0 : c0 = 1
      · simp only [if_pos hc0]
        exact ih taken n c hnd.2 hl hc
      · simp only [if_neg hc0]
        obtain ⟨nm, hnm⟩ := ih
          (pickName taken (defBaseName g n0) :: taken) n c hnd.2 hl hc
        exact ⟨nm, by rw [alookup, if_neg hn]; exact hnm⟩

theorem pickName_not_mem (taken : List String) (base : String) :
    pickName taken base ∉ taken := by
  rcases pickName_least taken base with ⟨hnm, heq⟩ | ⟨_, k, _, heq, hnm, _⟩
  · rw [heq]; exact hnm
  · exact hnm

/-- The allocated definition names are pairwise distinct and avoid the
already-taken names. -/
theorem allocGo_names_nodup (g : Graph) : ∀ (l : List (Nat × Nat))
    (taken : List String),
    ((allocGo g l taken).map Prod.snd).Nodup ∧
      ∀ nm ∈ (allocGo g l taken).map Prod.snd, nm ∉ taken := by
  intro l
  induction l with
  | nil =>
    intro taken
    rw [allocGo]
    exact ⟨List.nodup_nil, fun nm h => absurd h (by simp)⟩
  | cons nc rest ih =>
    intro taken
    obtain ⟨n, c⟩ := nc
    rw [allocGo]
    by_cases hc : c = 1
    · simp only [if_pos hc]
      exact ih taken
    · simp only [if_neg hc, List.map_cons]
      obtain ⟨hnod, havoid⟩ := ih (pickName taken (defBaseName g n) :: taken)
      constructor
      · rw [List.nodup_cons]
        exact ⟨fun hmem => (havoid _ hmem) (List.mem_cons_self _ _), hnod⟩
      · intro nm hmem
        rcases List.mem_cons.1 hmem with rfl | hmem2
        · exact pickName_not_mem taken _
        · exact fun ht => (havoid nm hmem2) (List.mem_cons_of_mem _ ht)

/-- With no duplicated nodes, no definition slot is allocated. -/
theorem allocGo_all_one (g : Graph) : ∀ (l : List (Nat × Nat))
    (taken : List String), (∀ nc ∈ l, nc.2 = 1) → allocGo g l taken = [] := by
  intro l
  induction l with
  | nil => intro taken _; rfl
  | cons nc rest ih =>
    intro taken hall
    obtain ⟨n, c⟩ := nc
    rw [allocGo]
    have hc : c = 1 := hall (n, c) (List.mem_cons_self _ _)
    simp only [if_pos hc]
    exact ih taken (fun nc2 h => hall nc2 (List.mem_cons_of_mem _ h))

/-- Destructuring a successful top-level compile into its three phases. -/
theorem compileFuel_ok_inv (f : Nat) (g : Graph) (root : Nat) (doc : JVal)
    (counts : CMap) (hc : countFuel f g root [] = some counts)
    (h : compileFuel f g root = .ok doc) :
    ∃ bodies js,
      renderBodies (renderFuel f g (allocDefs g counts))
        (allocDefs g counts) = .ok bodies ∧
      renderFuel f g (allocDefs g counts) false root = .ok js ∧
      doc = (if (allocDefs g counts).isEmpty then js
             else setKeyJ js "definitions" (.jobj bodies)) := by
  rw [compileFuel, hc] at h
  have h2 : (match renderBodies (renderFuel f g (allocDefs g counts))
      (allocDefs g counts) with
    | .error e => Except.error e
    | .ok bodies =>
      match renderFuel f g (allocDefs g counts) false root with
      | .error e => Except.error e
      | .ok js =>
        Except.ok (if (allocDefs g counts).isEmpty then js
          else setKeyJ js "definitions" (.jobj bodies))) = Except.ok doc := h
  rcases hbod : renderBodies (renderFuel f g (allocDefs g counts))
      (allocDefs g counts) with e | bodies <;> rw [hbod] at h2
  · cases h2
  · have h3 : (match renderFuel f g (allocDefs g counts) false root with
      | .error e => Except.error e
      | .ok js =>
        Except.ok (if (allocDefs g counts).isEmpty then js
          else setKeyJ js "definitions" (.jobj bodies))) = Except.ok doc := h2
    rcases hroot : renderFuel f g (allocDefs g counts) false root with e | js <;>
      rw [hroot] at h3
    · cases h3
    · cases h3
      exact ⟨bodies, js, rfl, rfl, rfl⟩

/-- Assembling a top-level compile from its three phases. -/
theorem compileFuel_ok_intro (f : Nat) (g : Graph) (root : Nat)
    (counts : CMap) (bodies : List (String × JVal)) (js : JVal)
    (hc : countFuel f g root [] = some counts)
    (hbod : renderBodies (renderFuel f g (allocDefs g counts))
      (allocDefs g counts) = .ok bodies)
    (hroot : renderFuel f g (allocDefs g counts) false root = .ok js) :
    compileFuel f g root = .ok (if (allocDefs g counts).isEmpty then js
      else setKeyJ js "definitions" (.jobj bodies)) := by
  rw [compileFuel, hc]
  show (match renderBodies (renderFuel f g (allocDefs g counts))
      (allocDefs g counts) with
    | .error e => Except.error e
    | .ok bodies =>
      match renderFuel f g (allocDefs g counts) false root with
      | .error e => Except.error e
      | .ok js =>
        Except.ok (if (allocDefs g counts).isEmpty then js
          else setKeyJ js "definitions" (.jobj bodies))) = _
  rw [hbod]
  show (match renderFuel f g (allocDefs g counts) false root with
    | .error e => Except.error e
    | .ok js =>
      Except.ok (if (allocDefs g counts).isEmpty then js
        else setKeyJ js "definitions" (.jobj bodies))) = _
  rw [hroot]

/-! ## Claim theorems -/

/-- C1: the claim says rendering a `Dict` never fails and produces a
`type: object` fragment with `properties`/`required`/`additionalProperties`
as appropriate.  In the code, the `required` comprehension at
jsonschema.py:239-243 reads the undefined name `fixed_properties`, so every
`Dict` render raises `NameError` instead: here, the fixed-field dict of
`test_fixed_fields_dict_schema` (`lt.Dict({'foo': lt.String(), 'bar':
lt.Integer()})`) and the variadic dict of `test_variadic_fields_dict_schema`
(`lt.Dict(lt.Integer())`) both compile to `NameError`. -/
theorem dict_render_raises_nameError :
    compileFuel 10
        ⟨[{ kind := .dict [("foo", 1), ("bar", 2)] none },
          { kind := .string }, { kind := .integer }]⟩ 0 =
      .error .nameError ∧
    compileFuel 10 ⟨[{ kind := .dict [] (some 1) }, { kind := .integer }]⟩ 0 =
      .error .nameError := by decide

/-- C2: the claim (and `test_object_optional_fields_wrapped_in_other_modifiers`)
says a field whose type is `DumpOnly(Optional(Integer()))` is excluded from
`required`.  The code checks `isinstance(v.field_type, lt.Optional)` on the
outermost type only (jsonschema.py:215-219), so the wrapped field `bar`
remains required: the compiled document's `required` lists both `foo` and
`bar`. -/
theorem wrapped_optional_still_required :
    compileFuel 10
        ⟨[{ kind := .object [("foo", 1), ("bar", 2)] .notSet },
          { kind := .string },
          { kind := .modifier 3 },
          { kind := .optional 4 none },
          { kind := .integer }]⟩ 0 =
      .ok (.jobj
        [("type", .jstr "object"),
         ("properties", .jobj
            [("foo", .jobj [("type", .jstr "string")]),
             ("bar", .jobj [("type", .jstr "integer")])]),
         ("required", .jarr [.jstr "foo", .jstr "bar"])]) := by decide

/-- C3: on the spec's own cyclic example (`test_self_referencing_types`:
a named `Dict` whose default value type is `OneOf [String, List(String),
TypeRef(self)]`), the usage-counting pass terminates and counts the cyclic
root twice, so it is promoted — but the full compile then raises the
`NameError` of the `Dict` branch (undefined `fixed_properties`,
jsonschema.py:241) instead of producing the claimed
`{$ref, definitions}` document. -/
theorem cyclic_example_counts_but_compile_fails :
    countFuel 20
        ⟨[{ kind := .dict [] (some 1), name := some "Errors" },
          { kind := .oneOf [2, 3, 5] },
          { kind := .string },
          { kind := .list 4 },
          { kind := .string },
          { kind := .typeRef 0 }]⟩ 0 [] =
      some [(0, 2), (1, 1), (2, 1), (3, 1), (4, 1)] ∧
    compileFuel 20
        ⟨[{ kind := .dict [] (some 1), name := some "Errors" },
          { kind := .oneOf [2, 3, 5] },
          { kind := .string },
          { kind := .list 4 },
          { kind := .string },
          { kind := .typeRef 0 }]⟩ 0 =
      .error .nameError := by decide

/-- C8: the claim says a node of unrecognized kind fails loudly with
`UnsupportedKindError`.  The `isinstance` chain of jsonschema.py:156-257
has no final `else`: a node of unknown kind falls through every branch and
the generic fragment (here empty: no name, description or validators) is
returned silently, both from the fragment compiler and from a full
compile. -/
theorem unsupported_kind_silently_skipped :
    renderFuel 5 ⟨[{ kind := .unsupported }]⟩ [] false 0 = .ok (.jobj []) ∧
    compileFuel 5 ⟨[{ kind := .unsupported }]⟩ 0 = .ok (.jobj []) := by decide

/-- C7 counterexample: the claim says `not: {enum: [...]}` is added for any
node with a `NoneOf` validator independently of other validators, including
`AnyOf`.  Two divergences: (1) the `AnyOf` branch returns early
(jsonschema.py:145), before the `NoneOf` processing, so a `String` node
carrying both `AnyOf(['a'])` and `NoneOf(['b'])` renders as a bare enum
fragment with no `not` key; (2) the modifier pass-through
(jsonschema.py:115-126) returns before any validator handling, so a
modifier node carrying `NoneOf(['b'])` with a non-empty union renders as
its inner type's fragment with no `not` key either. -/
theorem anyof_suppresses_noneof :
    (compileFuel 5
        ⟨[{ kind := .string,
            validators := [.anyOf [.jstr "a"], .noneOf [.jstr "b"]] }]⟩ 0 =
      .ok (.jobj [("enum", .jarr [.jstr "a"])]) ∧
     lookupJ (.jobj [("enum", .jarr [.jstr "a"])]) "not" = none ∧
     noneOfLists [Validator.anyOf [.jstr "a"], Validator.noneOf [.jstr "b"]] ≠
       []) ∧
    (compileFuel 5
        ⟨[{ kind := .modifier 1, validators := [.noneOf [.jstr "b"]] },
          { kind := .string }]⟩ 0 =
      .ok (.jobj [("type", .jstr "string")]) ∧
     lookupJ (.jobj [("type", .jstr "string")]) "not" = none ∧
     noneOfLists [Validator.noneOf [.jstr "b"]] ≠ [] ∧
     unionAll (noneOfLists [Validator.noneOf [.jstr "b"]]) ≠ []) := by decide

/-- C5 counterexample: the claim says every node with an attached `AnyOf`
validator renders as the enum-over-intersection fragment, and that an empty
intersection makes the compile raise the constraint error.  But the
modifier pass-through (jsonschema.py:115-126) returns before any validator
handling: a modifier node carrying `AnyOf(['a'])` (non-empty intersection)
renders as its inner type's fragment with no `enum` key, and a modifier
node carrying `AnyOf(['a'])` and `AnyOf(['b'])` (empty intersection)
compiles without any error. -/
theorem anyof_on_modifier_passes_through :
    (compileFuel 5
        ⟨[{ kind := .modifier 1, validators := [.anyOf [.jstr "a"]] },
          { kind := .string }]⟩ 0 =
      .ok (.jobj [("type", .jstr "string")]) ∧
     lookupJ (.jobj [("type", .jstr "string")]) "enum" = none ∧
     anyOfLists [Validator.anyOf [.jstr "a"]] ≠ [] ∧
     interAll (anyOfLists [Validator.anyOf [.jstr "a"]]) ≠ []) ∧
    (compileFuel 5
        ⟨[{ kind := .modifier 1,
            validators := [.anyOf [.jstr "a"], .anyOf [.jstr "b"]] },
          { kind := .string }]⟩ 0 =
      .ok (.jobj [("type", .jstr "string")]) ∧
     interAll (anyOfLists [Validator.anyOf [.jstr "a"],
       Validator.anyOf [.jstr "b"]]) = []) := by decide

/-- C9 counterexample: the claim says `json_schema(Optional(T))` equals
`json_schema(T)` except for an added `default` key.  When the `Optional`
node is itself reachable from `T` (through a `TypeRef` cycle), the two
compiles promote different nodes into the single definition slot and the
truthy default lands in different places: compiling the `Optional` puts
`default` inside the definition body, compiling `T` puts it inside the
`items` reference — the documents differ at `definitions`, not at a
top-level `default` key. -/
theorem optional_cycle_not_inner_plus_default :
    compileFuel 9
        ⟨[{ kind := .optional 1 (some (.jstr "x")) },
          { kind := .list 2 },
          { kind := .typeRef 0 }]⟩ 0 =
      .ok (.jobj
        [("$ref", .jstr "#/definitions/Type"),
         ("definitions", .jobj
            [("Type", .jobj
              [("type", .jstr "array"),
               ("items", .jobj [("$ref", .jstr "#/definitions/Type")]),
               ("default", .jstr "x")])])]) ∧
    compileFuel 9
        ⟨[{ kind := .optional 1 (some (.jstr "x")) },
          { kind := .list 2 },
          { kind := .typeRef 0 }]⟩ 1 =
      .ok (.jobj
        [("$ref", .jstr "#/definitions/Type"),
         ("definitions", .jobj
            [("Type", .jobj
              [("type", .jstr "array"),
               ("items", .jobj
                 [("$ref", .jstr "#/definitions/Type"),
                  ("default", .jstr "x")])])])]) ∧
    pyTruthy (.jstr "x") = true ∧
    lookupJ (.jobj
        [("$ref", .jstr "#/definitions/Type"),
         ("definitions", .jobj
            [("Type", .jobj
              [("type", .jstr "array"),
               ("items", .jobj [("$ref", .jstr "#/definitions/Type")]),
               ("default", .jstr "x")])])]) "definitions" ≠
      lookupJ (.jobj
        [("$ref", .jstr "#/definitions/Type"),
         ("definitions", .jobj
            [("Type", .jobj
              [("type", .jstr "array"),
               ("items", .jobj
                 [("$ref", .jstr "#/definitions/Type"),
                  ("default", .jstr "x")])])])]) "definitions" := by decide

/-- C6 counterexample: the claim's recipe upper-cases the first letter
following each separator and deletes the separator, which would turn the
declared name `My_String` into `MyString`.  The code's second regex
`[_ ]+([a-z])` only fires on a lowercase letter (jsonschema.py:29-30), so
the underscore before the uppercase `S` survives: the promoted node is
registered under `My_String`, not the claim's `MyString`. -/
theorem sanitize_keeps_sep_before_uppercase :
    compileFuel 10
        ⟨[{ kind := .object [("foo", 1), ("bar", 1)] .notSet },
          { kind := .string, name := some "My_String" }]⟩ 0 =
      .ok (.jobj
        [("type", .jstr "object"),
         ("properties", .jobj
            [("foo", refFrag "My_String"), ("bar", refFrag "My_String")]),
         ("required", .jarr [.jstr "foo", .jstr "bar"]),
         ("definitions", .jobj
            [("My_String", .jobj [("title", .jstr "My_String"),
                                  ("type", .jstr "string")])])]) ∧
    claimSanitizeName "My_String" = "MyString" ∧
    sanitizeName "My_String" = "My_String" ∧
    ("My_String" : String) ≠ "MyString" := by decide

/-- C6 amended: definition naming as the code implements it.  The assigned
name starts from the sanitized declared name (or the literal `Type`), where
sanitization collapses invalid-character runs to single spaces, trims, and
camel-cases a *lowercase* letter following a separator run, deleting the
run (a separator before an uppercase letter or digit is kept — this is the
one divergence from the original claim, witnessed by the counterexample).
On collision the smallest positive integer suffix is appended; slots are
allocated in first-registration (counts) order, and every reference site of
a promoted node renders its assigned `$ref`.  Three same-named promoted
types get `MyType`, `MyType1`, `MyType2`
(`test_definition_name_conflict_resolving`). -/
theorem definition_naming_smallest_suffix :
    (∀ s, sanitizeName s = specSanitizeName s) ∧
    (∀ (g : Graph) (n : Nat), defBaseName g n =
      (if pyStrOpt (g.get n).name then specSanitizeName (((g.get n).name).getD "")
       else "Type")) ∧
    (∀ (taken : List String) (base : String),
      LeastSuffixSpec taken base (pickName taken base)) ∧
    (∀ (g : Graph) (l : List (Nat × Nat)) (taken : List String),
      (allocGo g l taken).map Prod.fst =
        (l.filter fun nc => nc.2 != 1).map Prod.fst) ∧
    (∀ (g : Graph) (defs : Defs) (f n : Nat) (nm : String),
      alookup defs n = some nm →
      renderFuel (f + 1) g defs false n = .ok (refFrag nm)) ∧
    compileFuel 10
        ⟨[{ kind := .object [("field1", 1), ("field2", 2), ("field3", 3),
                            ("field4", 1), ("field5", 2), ("field6", 3)]
              .notSet },
          { kind := .string, name := some "MyType" },
          { kind := .integer, name := some "MyType" },
          { kind := .boolean, name := some "MyType" }]⟩ 0 =
      .ok (.jobj
        [("type", .jstr "object"),
         ("properties", .jobj
            [("field1", refFrag "MyType"), ("field2", refFrag "MyType1"),
             ("field3", refFrag "MyType2"), ("field4", refFrag "MyType"),
             ("field5", refFrag "MyType1"), ("field6", refFrag "MyType2")]),
         ("required", .jarr
            [.jstr "field1", .jstr "field2", .jstr "field3",
             .jstr "field4", .jstr "field5", .jstr "field6"]),
         ("definitions", .jobj
            [("MyType", .jobj [("title", .jstr "MyType"),
                               ("type", .jstr "string")]),
             ("MyType1", .jobj [("title", .jstr "MyType"),
                                ("type", .jstr "integer")]),
             ("MyType2", .jobj [("title", .jstr "MyType"),
                                ("type", .jstr "boolean")])])]) := by
  refine ⟨sanitizeName_eq_spec, ?_, pickName_least, allocGo_keys, ?_, by decide⟩
  · intro g n
    unfold defBaseName
    split_ifs with h
    · rw [sanitizeName_eq_spec]
    · rfl
  · intro g defs f n nm h
    rw [renderFuel_succ]
    exact renderStep_ref g defs _ n nm h

/-- C6 amended witness: a promoted node renders its assigned name at a
reference site. -/
theorem definition_naming_smallest_suffix_witness :
    renderFuel 1 ⟨[{ kind := .string }]⟩ [(0, "X")] false 0 =
      .ok (refFrag "X") :=
  definition_naming_smallest_suffix.2.2.2.2.1
    ⟨[{ kind := .string }]⟩ [(0, "X")] 0 0 "X" rfl

/-- C10: rendering an `Optional` that carries a truthy load-time default
around an inner node promoted to a definition slot merges the `default`
into the `$ref` fragment: the modifier branch renders the inner node
(which yields the `$ref`) and then assigns `default` into that same
fragment (jsonschema.py:115-122). -/
theorem promoted_optional_merges_default_into_ref (g : Graph) (defs : Defs)
    (f n inner : Nat) (dv : JVal) (nm : String)
    (hk : (g.get n).kind = .optional inner (some dv))
    (ht : pyTruthy dv = true)
    (hin : alookup defs inner = some nm)
    (hout : alookup defs n = none) :
    renderFuel (f + 2) g defs false n =
      .ok (.jobj [("$ref", .jstr ("#/definitions/" ++ nm)),
                  ("default", dump g inner dv)]) := by
  have hstep : renderFuel (f + 1) g defs false inner = .ok (refFrag nm) := by
    rw [renderFuel_succ]
    exact renderStep_ref g defs _ inner nm hin
  rw [renderFuel_succ, renderStep_miss g defs _ false n hout, renderMain, hk]
  simp only [hstep, ht]
  simp [setKeyJ, setKey, refFrag, dump]

/-- C10 witness: a concrete promoted inner `String` with default `"d"`. -/
theorem promoted_optional_merges_default_into_ref_witness :
    renderFuel 2 ⟨[{ kind := .string }, { kind := .optional 0 (some (.jstr "d")) }]⟩
        [(0, "T")] false 1 =
      .ok (.jobj [("$ref", .jstr "#/definitions/T"),
                  ("default", .jstr "d")]) :=
  promoted_optional_merges_default_into_ref
    ⟨[{ kind := .string }, { kind := .optional 0 (some (.jstr "d")) }]⟩
    [(0, "T")] 0 1 0 (.jstr "d") "T" rfl rfl rfl rfl

/-- C9 (amended): for an `Optional` node whose inner type `T` does not reach
the `Optional` node itself (the usage-counting pass started at `T` never
records the `Optional` node), compiling the `Optional` yields the same
document as compiling `T` — same value at every key — except that a present
and truthy configured load-time default adds a `default` key holding the
`dump`-serialized default; an absent or falsy configured default changes
nothing at all. -/
theorem optional_transparent_modulo_default (g : Graph) (optn T : Nat)
    (d : Option JVal) (fB : Nat) (cT : CMap) (docB : JVal)
    (hk : (g.get optn).kind = .optional T d)
    (hcB : countFuel fB g T [] = some cT)
    (hmiss : alookup cT optn = none)
    (hB : compileFuel fB g T = .ok docB) :
    ∃ docA, compileFuel (fB + 1) g optn = .ok docA ∧
      match d with
      | some dv =>
        if pyTruthy dv then
          (∀ q, q ≠ "default" → lookupJ docA q = lookupJ docB q) ∧
          lookupJ docA "default" = some (dump g T dv)
        else docA = docB
      | none => docA = docB := by
  obtain ⟨bodies, jsB, hbod, hroot, hdocB⟩ :=
    compileFuel_ok_inv fB g T docB cT hcB hB
  subst hdocB
  obtain ⟨es, rfl, -⟩ := renderFuel_shape fB g (allocDefs g cT) false T jsB hroot
  have hknd : ∀ i, (g.get optn).kind ≠ Kind.typeRef i := by
    intro i hh
    rw [hk] at hh
    cases hh
  have hcount : countFuel (fB + 1) g optn [] = some ((optn, 1) :: cT) := by
    rw [countFuel_succ, countStep_new g _ optn [] rfl hknd, hk]
    show countSeq (countFuel fB g) [T] [(optn, 1)] = _
    rw [countSeq, countFuel_extend g optn 1 hknd fB T [] cT hcB hmiss]
    rfl
  have hbodA : renderBodies (renderFuel (fB + 1) g (allocDefs g cT))
      (allocDefs g cT) = .ok bodies :=
    renderBodies_congr _ _
      (fun b n v hh => renderFuel_succ_mono fB g (allocDefs g cT) b n v hh)
      _ bodies hbod
  have hdm : alookup (allocDefs g cT) optn = none :=
    alookup_allocDefs_none g cT optn hmiss
  cases d with
  | none =>
    have hrootA : renderFuel (fB + 1) g (allocDefs g cT) false optn =
        .ok (.jobj es) := by
      rw [renderFuel_succ, renderStep_miss g _ _ false optn hdm,
        renderMain_optional_none g _ _ false optn T hk, hroot]
      rfl
    exact ⟨_, compileFuel_ok_intro (fB + 1) g optn ((optn, 1) :: cT) bodies
      (.jobj es) hcount hbodA hrootA, rfl⟩
  | some dv =>
    have hdefs : allocDefs g ((optn, 1) :: cT) = allocDefs g cT := rfl
    by_cases hpt : pyTruthy dv = true
    · have hrootA : renderFuel (fB + 1) g (allocDefs g cT) false optn =
          .ok (.jobj (setKey es "default" (dump g T dv))) := by
        rw [renderFuel_succ, renderStep_miss g _ _ false optn hdm,
          renderMain_optional_some g _ _ false optn T dv hk, hroot]
        show (if pyTruthy dv then
          Except.ok (setKeyJ (.jobj es) "default" (dump g T dv))
         else Except.ok (.jobj es)) = _
        rw [if_pos hpt]
        rfl
      have hcomp := compileFuel_ok_intro (fB + 1) g optn ((optn, 1) :: cT)
        bodies (.jobj (setKey es "default" (dump g T dv))) hcount hbodA hrootA
      rw [hdefs] at hcomp
      by_cases hemp : (allocDefs g cT).isEmpty = true
      · rw [if_pos hemp] at hcomp
        refine ⟨.jobj (setKey es "default" (dump g T dv)), hcomp, ?_⟩
        show if pyTruthy dv then (_ ∧ _) else _
        rw [if_pos hpt, if_pos hemp]
        exact ⟨fun q hq => lookupL_setKey_ne es "default" q _ hq,
          lookupL_setKey_self es "default" (dump g T dv)⟩
      · rw [if_neg hemp] at hcomp
        refine ⟨setKeyJ (.jobj (setKey es "default" (dump g T dv)))
          "definitions" (.jobj bodies), hcomp, ?_⟩
        show if pyTruthy dv then (_ ∧ _) else _
        rw [if_pos hpt, if_neg hemp]
        constructor
        · intro q hq
          show lookupL (setKey (setKey es "default" (dump g T dv))
              "definitions" (.jobj bodies)) q =
            lookupL (setKey es "definitions" (.jobj bodies)) q
          by_cases hdef : q = "definitions"
          · subst hdef
            rw [lookupL_setKey_self, lookupL_setKey_self]
          · rw [lookupL_setKey_ne _ _ _ _ hdef, lookupL_setKey_ne _ _ _ _ hdef,
              lookupL_setKey_ne _ _ _ _ hq]
        · show lookupL (setKey (setKey es "default" (dump g T dv))
              "definitions" (.jobj bodies)) "default" = _
          rw [lookupL_setKey_ne _ _ _ _ (by decide), lookupL_setKey_self]
    · have hrootA : renderFuel (fB + 1) g (allocDefs g cT) false optn =
          .ok (.jobj es) := by
        rw [renderFuel_succ, renderStep_miss g _ _ false optn hdm,
          renderMain_optional_some g _ _ false optn T dv hk, hroot]
        show (if pyTruthy dv then
          Except.ok (setKeyJ (.jobj es) "default" (dump g T dv))
         else Except.ok (.jobj es)) = _
        rw [if_neg hpt]
      refine ⟨_, compileFuel_ok_intro (fB + 1) g optn ((optn, 1) :: cT) bodies
        (.jobj es) hcount hbodA hrootA, ?_⟩
      show if pyTruthy dv then (_ ∧ _) else _
      rw [if_neg hpt]
      rfl

/-- Witness for the amended C9 theorem: `Optional(String, load_default=5)`
compiles to the string schema plus `default: 5`. -/
theorem optional_transparent_modulo_default_witness :
    ∃ docA,
      compileFuel 2 ⟨[{ kind := .optional 1 (some (.jint 5)) },
                      { kind := .string }]⟩ 0 = .ok docA ∧
      (∀ q, q ≠ "default" →
        lookupJ docA q = lookupJ (.jobj [("type", .jstr "string")]) q) ∧
      lookupJ docA "default" = some (.jint 5) :=
  optional_transparent_modulo_default
    ⟨[{ kind := .optional 1 (some (.jint 5)) }, { kind := .string }]⟩
    0 1 (some (.jint 5)) 1 [(1, 1)] (.jobj [("type", .jstr "string")])
    (by decide) (by decide) (by decide) (by decide)

/-- C4: the deduplication invariant.  For a successful top-level compile:
(a) every node counted more than once has a definition slot; each
non-forced render of it is exactly the `$ref` fragment, the designated
(forced) definition-body render falls through to the main inline builder,
and the document's `definitions` block names it exactly once; (b) a node
counted exactly once gets no slot, so every render of it falls through to
the main inline builder where it occurs; (c) when every node is counted
exactly once the document carries no `definitions` key at all. -/
theorem dedup_invariant (g : Graph) (root f : Nat) (counts : CMap)
    (doc : JVal) (hc : countFuel f g root [] = some counts)
    (hcomp : compileFuel f g root = .ok doc) :
    (∀ n c, alookup counts n = some c → c ≠ 1 →
      ∃ nm, alookup (allocDefs g counts) n = some nm ∧
        (∀ fuel, renderFuel (fuel + 1) g (allocDefs g counts) false n =
          .ok (refFrag nm)) ∧
        (∀ fuel, renderFuel (fuel + 1) g (allocDefs g counts) true n =
          renderMain g (allocDefs g counts)
            (renderFuel fuel g (allocDefs g counts)) true n) ∧
        ∃ entries, lookupJ doc "definitions" = some (.jobj entries) ∧
          (entries.map Prod.fst).count nm = 1) ∧
    (∀ n, alookup counts n = some 1 →
      alookup (allocDefs g counts) n = none ∧
      ∀ fuel, renderFuel (fuel + 1) g (allocDefs g counts) false n =
        renderMain g (allocDefs g counts)
          (renderFuel fuel g (allocDefs g counts)) false n) ∧
    ((∀ nc ∈ counts, nc.2 = 1) → lookupJ doc "definitions" = none) := by
  have hnd : (counts.map Prod.fst).Nodup :=
    countFuel_nodup f g root [] counts hc (by simp)
  obtain ⟨bodies, js, hbod, hroot, hdoc⟩ :=
    compileFuel_ok_inv f g root doc counts hc hcomp
  subst hdoc
  obtain ⟨esj, rfl, hjs⟩ :=
    renderFuel_shape f g (allocDefs g counts) false root js hroot
  refine ⟨?_, ?_, ?_⟩
  · intro n c hn hc1
    obtain ⟨nm, hnm⟩ := allocGo_alookup_promoted g counts [] n c hnd hn hc1
    have hnm2 : alookup (allocDefs g counts) n = some nm := hnm
    refine ⟨nm, hnm2, ?_, ?_, ?_⟩
    · intro fuel
      rw [renderFuel_succ, renderStep_ref g _ _ n nm hnm2]
    · intro fuel
      rw [renderFuel_succ, renderStep_forced]
    · have hne : ¬(allocDefs g counts).isEmpty = true := by
        intro hh
        cases hdl : allocDefs g counts with
        | nil => rw [hdl] at hnm2; cases hnm2
        | cons a l => rw [hdl] at hh; cases hh
      rw [if_neg hne]
      refine ⟨bodies, ?_, ?_⟩
      · show lookupL (setKey esj "definitions" (.jobj bodies)) "definitions" = _
        rw [lookupL_setKey_self]
      · rw [renderBodies_names _ (allocDefs g counts) bodies hbod]
        exact List.count_eq_one_of_mem (allocGo_names_nodup g counts []).1
          (List.mem_map.2 ⟨(n, nm), alookup_mem _ _ _ hnm2, rfl⟩)
  · intro n h1
    refine ⟨alookup_allocDefs_one g counts n hnd h1, ?_⟩
    intro fuel
    rw [renderFuel_succ,
      renderStep_miss g _ _ false n (alookup_allocDefs_one g counts n hnd h1)]
  · intro hall
    have hempty : allocDefs g counts = [] := allocGo_all_one g counts [] hall
    rw [hempty]
    show lookupL esj "definitions" = none
    exact hjs

/-- Witness for C4 on a concrete graph: a two-element tuple whose item type
`S` occurs twice and is promoted, so the document has exactly one
`definitions` entry `S`, both occurrences render as `$ref`, and the
tuple root itself (counted once) renders inline. -/
theorem dedup_invariant_witness :
    (∀ n c, alookup [(0, 1), (1, 2)] n = some c → c ≠ 1 →
      ∃ nm, alookup (allocDefs ⟨[{ kind := .tuple [1, 1] },
          { kind := .string, name := some "S" }]⟩ [(0, 1), (1, 2)]) n =
            some nm ∧
        (∀ fuel, renderFuel (fuel + 1)
            ⟨[{ kind := .tuple [1, 1] },
              { kind := .string, name := some "S" }]⟩
            (allocDefs ⟨[{ kind := .tuple [1, 1] },
              { kind := .string, name := some "S" }]⟩ [(0, 1), (1, 2)])
            false n = .ok (refFrag nm)) ∧
        (∀ fuel, renderFuel (fuel + 1)
            ⟨[{ kind := .tuple [1, 1] },
              { kind := .string, name := some "S" }]⟩
            (allocDefs ⟨[{ kind := .tuple [1, 1] },
              { kind := .string, name := some "S" }]⟩ [(0, 1), (1, 2)])
            true n =
          renderMain ⟨[{ kind := .tuple [1, 1] },
              { kind := .string, name := some "S" }]⟩
            (allocDefs ⟨[{ kind := .tuple [1, 1] },
              { kind := .string, name := some "S" }]⟩ [(0, 1), (1, 2)])
            (renderFuel fuel
              ⟨[{ kind := .tuple [1, 1] },
                { kind := .string, name := some "S" }]⟩
              (allocDefs ⟨[{ kind := .tuple [1, 1] },
                { kind := .string, name := some "S" }]⟩ [(0, 1), (1, 2)]))
            true n) ∧
        ∃ entries,
          lookupJ (.jobj
            [("type", .jstr "array"),
             ("items", .jarr [refFrag "S", refFrag "S"]),
             ("definitions", .jobj
               [("S", .jobj [("title", .jstr "S"),
                             ("type", .jstr "string")])])]) "definitions" =
            some (.jobj entries) ∧
          (entries.map Prod.fst).count nm = 1) ∧
    (∀ n, alookup [(0, 1), (1, 2)] n = some 1 →
      alookup (allocDefs ⟨[{ kind := .tuple [1, 1] },
          { kind := .string, name := some "S" }]⟩ [(0, 1), (1, 2)]) n =
        none ∧
      ∀ fuel, renderFuel (fuel + 1)
          ⟨[{ kind := .tuple [1, 1] },
            { kind := .string, name := some "S" }]⟩
          (allocDefs ⟨[{ kind := .tuple [1, 1] },
            { kind := .string, name := some "S" }]⟩ [(0, 1), (1, 2)])
          false n =
        renderMain ⟨[{ kind := .tuple [1, 1] },
            { kind := .string, name := some "S" }]⟩
          (allocDefs ⟨[{ kind := .tuple [1, 1] },
            { kind := .string, name := some "S" }]⟩ [(0, 1), (1, 2)])
          (renderFuel fuel
            ⟨[{ kind := .tuple [1, 1] },
              { kind := .string, name := some "S" }]⟩
            (allocDefs ⟨[{ kind := .tuple [1, 1] },
              { kind := .string, name := some "S" }]⟩ [(0, 1), (1, 2)]))
          false n) ∧
    ((∀ nc ∈ [((0 : Nat), (1 : Nat)), (1, 2)], nc.2 = 1) →
      lookupJ (.jobj
        [("type", .jstr "array"),
         ("items", .jarr [refFrag "S", refFrag "S"]),
         ("definitions", .jobj
           [("S", .jobj [("title", .jstr "S"),
                         ("type", .jstr "string")])])]) "definitions" =
        none) :=
  dedup_invariant
    ⟨[{ kind := .tuple [1, 1] }, { kind := .string, name := some "S" }]⟩
    0 3 [(0, 1), (1, 2)]
    (.jobj
      [("type", .jstr "array"),
       ("items", .jarr [refFrag "S", refFrag "S"]),
       ("definitions", .jobj
         [("S", .jobj [("title", .jstr "S"), ("type", .jstr "string")])])])
    (by decide) (by decide)

end Lollipop
